import Mathlib

/-!
# MailAI Console — verification of the Run Orchestrator core

Shallow embedding of the core of `backend/mailai/core/runner.py`,
`backend/mailai/utils/text_processing.py` and the data model of
`backend/mailai/models/simple_db.py`.

Modelling conventions:
* Python `float` score arithmetic is embedded as `ℚ` (e.g. `0.7 = 7/10`).
* Python `datetime` values are carried as opaque `String` tokens (never
  computed on by the core).
* Python `set` objects used only through membership / size are embedded as
  `Finset String`; where the source materializes `list(set(...))` (whose
  iteration order Python leaves unspecified) we use first-occurrence order
  (`dedupKeepFirst`).  No claim depends on that order.
* Provider objects (Gmail search, embedder, BM25 index, vector store,
  reranker, summarizer) are external collaborators; they are embedded as
  function-valued parameters.  A provider call that may raise is a
  function into `Except Unit _`.
* `await` suspension points are irrelevant to the sequential semantics and
  are dropped.
-/

namespace MailAI

/- Batteries marks the `Rat` arithmetic operations `@[irreducible]`, which
blocks `decide`-style evaluation of concrete score computations; restore
the default transparency (the kernel ignores reducibility attributes, so
this changes nothing about what is provable). -/
set_option allowUnsafeReducibility true in
attribute [semireducible] Rat.mul Rat.div Rat.add Rat.sub Rat.inv Rat.blt Rat.neg

/-! ## Small helpers mirroring Python string primitives -/

/-- Keep the first occurrence of every element, dropping later duplicates.
Used as the deterministic stand-in for Python's (unspecified) `set`
iteration order wherever the source materializes `list(set(...))`; no
property proved below depends on the chosen order. -/
def dedupKeepFirst : List String → List String
  | [] => []
  | x :: xs => x :: (dedupKeepFirst xs).filter (fun y => y ≠ x)

/-- Python `str.lower()` (per-character case folding). -/
def pyLower (s : String) : String := String.mk (s.data.map Char.toLower)

/-- Split a character list at every character satisfying `p`, keeping empty
pieces. -/
def splitByAux (p : Char → Bool) : List Char → List Char → List (List Char)
  | [], acc => [acc.reverse]
  | c :: rest, acc =>
    if p c then acc.reverse :: splitByAux p rest []
    else splitByAux p rest (c :: acc)

/-- Python `str.split()` (no separator): split on whitespace, dropping
empty pieces. -/
def pySplit (s : String) : List String :=
  ((splitByAux Char.isWhitespace s.data []).filter (fun w => w ≠ [])).map String.mk

set_option linter.unusedVariables false in
/-- Worker for `pySplitOn`: split at every occurrence of the (non-empty)
separator. -/
def splitOnGo (sep : List Char) : List Char → List Char → List (List Char)
  | [], acc => [acc.reverse]
  | c :: rest, acc =>
    if h : sep ≠ [] ∧ sep.isPrefixOf (c :: rest) then
      acc.reverse :: splitOnGo sep ((c :: rest).drop sep.length) []
    else splitOnGo sep rest (c :: acc)
termination_by l _ => l.length
decreasing_by
  · have hlen : 1 ≤ sep.length := by
      cases sep with
      | nil => exact absurd rfl h.1
      | cons a l => simp
    simp only [List.length_drop, List.length_cons]
    omega
  · simp only [List.length_cons]
    omega

/-- Python `s.split(sep)` for a string separator. -/
def pySplitOn (s sep : String) : List String :=
  if sep.data = [] then [s]
  else (splitOnGo sep.data s.data []).map String.mk

/-- Python `str.strip()`: drop leading and trailing whitespace. -/
def pyStrip (s : String) : String :=
  String.mk (((s.data.dropWhile Char.isWhitespace).reverse.dropWhile
    Char.isWhitespace).reverse)

/-- Python `pat in s` substring test: some suffix of `s` starts with
`pat`. -/
def strContains (s pat : String) : Bool :=
  s.data.tails.any (fun t => pat.data.isPrefixOf t)

/-- Python `str.title()` restricted to space-separated words: lowercase the
word then capitalize its first letter.  (The source only applies `.title()`
to single keywords and single words.) -/
def pyTitle (s : String) : String :=
  " ".intercalate ((pySplitOn s " ").map (fun w =>
    match (pyLower w).data with
    | [] => ""
    | c :: rest => String.mk (Char.toUpper c :: rest)))

/-- Python `dict(pairs).get(k, 0.0)`: later pairs overwrite earlier ones,
missing keys default to `0`. -/
def dictGet (pairs : List (String × ℚ)) (k : String) : ℚ :=
  ((pairs.reverse).lookup k).getD 0

/-- Decidable equality for `Except` results (used to evaluate the model on
concrete inputs). -/
instance exceptDecidableEq {ε α : Type} [DecidableEq ε] [DecidableEq α] :
    DecidableEq (Except ε α)
  | Except.ok x, Except.ok y =>
    if h : x = y then Decidable.isTrue (congrArg Except.ok h)
    else Decidable.isFalse (fun hc => h (Except.ok.inj hc))
  | Except.error x, Except.error y =>
    if h : x = y then Decidable.isTrue (congrArg Except.error h)
    else Decidable.isFalse (fun hc => h (Except.error.inj hc))
  | Except.ok _, Except.error _ => Decidable.isFalse (fun hc => Except.noConfusion hc)
  | Except.error _, Except.ok _ => Decidable.isFalse (fun hc => Except.noConfusion hc)

/-- Ceiling division on naturals, `⌈a / b⌉`, used to state the chunk-count
property of the spec. -/
def ceilDivNat (a b : ℕ) : ℕ := (a + b - 1) / b

/-! ## `TextProcessor.chunk_text` (text_processing.py, lines 83–111) -/

/-- The word-level `while start < len(words)` loop of `chunk_text`:
at `start`, take `words[start : min (start+chunk_size) len]`, stop when the
chunk reaches the end, otherwise advance `start` by
`max (chunk_size - overlap) 1`. -/
def chunkWordsGo (ws : List String) (chunk_size overlap : ℕ) (start : ℕ) :
    List (List String) :=
  if h : start < ws.length then
    let chunk := (ws.drop start).take chunk_size
    if ws.length ≤ start + chunk_size then
      [chunk]
    else
      chunk :: chunkWordsGo ws chunk_size overlap
        (max (start + chunk_size - overlap) (start + 1))
  else []
termination_by ws.length - start
decreasing_by
  simp_wf
  have h1 : start + 1 ≤ max (start + chunk_size - overlap) (start + 1) :=
    le_max_right _ _
  omega

/-- The word-level chunking loop started at `0`. -/
def chunkWords (ws : List String) (chunk_size overlap : ℕ) : List (List String) :=
  chunkWordsGo ws chunk_size overlap 0

/-- `TextProcessor.chunk_text`: empty text gives no chunks; text of at most
`chunk_size` words is returned whole; otherwise the overlapping word-window
loop runs and the windows are re-joined with single spaces. -/
def chunk_text (text : String) (chunk_size : ℕ := 800) (overlap : ℕ := 100) :
    List String :=
  if text = "" then []
  else
    let words := pySplit text
    if words.length ≤ chunk_size then [text]
    else (chunkWords words chunk_size overlap).map (fun c => " ".intercalate c)

/-- Concatenation of chunks "with the overlap removed": the first chunk
whole, every later chunk with its first `overlap` words dropped.  (This is
the spec's reconstruction operation, stated from the spec's words.) -/
def dropOverlaps (overlap : ℕ) (chunks : List (List String)) : List String :=
  match chunks with
  | [] => []
  | c :: rest => c ++ (rest.map (fun l => l.drop overlap)).flatten


/-! ## Data model (simple_db.py) and runner value types (runner.py) -/

/-- `RunStatus` enum (simple_db.py, lines 62–74). -/
inductive RunStatus where
  | queued | fetching | normalizing | ranking | iterating
  | summarizing | exporting | done | failed | paused | cancelled
deriving DecidableEq, Repr

/-- `RunConfig` dataclass (runner.py, lines 24–38); floats as `ℚ`
(`0.3 = 3/10`, `0.02 = 1/50`). -/
structure RunConfig where
  question : String
  after : Option String := none
  before : Option String := none
  domains : Option (List String) := none
  max_iters : ℕ := 4
  use_api_planner : Bool := false
  polish_with_api : Bool := false
  min_precision : ℚ := 3/10
  min_novelty_gain : ℚ := 1/50
  max_chunks_per_iter : ℕ := 100
  chunk_size : ℕ := 800
  chunk_overlap : ℕ := 100
deriving DecidableEq

/-- `IterationMetrics` dataclass (runner.py, lines 41–52). -/
structure IterationMetrics where
  iteration : ℕ
  queries_tried : ℕ
  new_messages : ℕ
  new_threads : ℕ
  total_chunks : ℕ
  precision_proxy : ℚ
  novelty_gain : ℚ
  duration_ms : ℕ
  stop_reason : Option String := none
deriving DecidableEq, Repr

/-- `MessageMeta` dataclass (interfaces.py, lines 10–19); the `datetime`
field is an opaque string token. -/
structure MessageMeta where
  gmail_id : String
  thread_id : String
  date : String
  from_email : String
  subject : String
  labels : List String
  snippet : String
deriving DecidableEq, Repr

/-- Full provider `Message` with body (interfaces.py, lines 22–51).  The
optional recipient/threading/header metadata fields are never read by the
orchestrator core and are omitted. -/
structure Message extends MessageMeta where
  body : String
deriving DecidableEq, Repr

/-- `QueryPlan` shape used by `_generate_queries` (runner.py, lines 329–333):
an ad-hoc object with `query_str`, `rationale` and `est_hits`. -/
structure QueryPlan where
  query_str : String
  rationale : String
  est_hits : ℕ
deriving DecidableEq, Repr

/-- Row of the `queries` table as written by `_store_query`
(runner.py, lines 480–506). -/
structure QueryRow where
  run_id : String
  iteration : ℕ
  query_str : String
  rationale : String
  hits : ℕ
  new_msgs : ℕ
  new_threads : ℕ
  exec_ms : ℕ
deriving DecidableEq, Repr

/-- Row of the `terms` table as written by `_store_term_expansion`
(runner.py, lines 508–531). -/
structure TermExpansionRow where
  run_id : String
  iteration : ℕ
  added_terms_json : List String
  removed_terms_json : List String
  evidence_terms_json : List String
deriving DecidableEq, Repr

/-- Row of the `messages` table as written by `_store_messages`
(runner.py, lines 533–551); `selected` has column default `False`. -/
structure DBMessage where
  run_id : String
  gmail_id : String
  thread_id : String
  date : String
  from_email : String
  subject : String
  labels_json : List String
  snippet : String
  selected : Bool := false
deriving DecidableEq, Repr

/-- Row of the `runs` table (simple_db.py, lines 84–96), restricted to the
fields the orchestrator reads or writes.  `metrics_error` models the
`metrics_json["error"]` entry written by `_update_run_status`. -/
structure RunRow where
  run_id : String
  question : String
  status : RunStatus
  stop_reason : Option String := none
  metrics_error : Option String := none
deriving DecidableEq, Repr

/-! ## Term extractor (runner.py) -/

/-- `_extract_initial_terms` (runner.py, lines 420–431): fixed seed
vocabulary plus title-cased question words longer than 3 characters that
are not interrogatives; `list(set(terms))` in the source, modelled in
first-occurrence order. -/
def extract_initial_terms (question : String) : List String :=
  let base := ["CoolSculpting", "Elite", "return", "RMA", "thermal", "sensor"]
  let question_words := pySplit (pyLower question)
  let fromQuestion := (question_words.filter (fun w =>
    3 < w.length ∧ w ∉ ["show", "what", "when", "where", "how"])).map pyTitle
  dedupKeepFirst (base ++ fromQuestion)

/-- The keyword vocabulary of `_expand_terms`
(runner.py, lines 449–467): logistics, technical and process phrases. -/
def expandKeywords : List String :=
  ["waybill", "bill of lading", "palletize", "freight", "ltl",
   "pickup", "carrier", "logistics", "shipping", "label",
   "thermal sensor", "error code", "manufacturing defect",
   "protocol", "bypass", "temperature regulation",
   "credit memo", "restocking fee", "inspection", "warranty",
   "replacement", "manufacturing year"]

/-- `_expand_terms` (runner.py, lines 433–478).  Scans the concatenated
message bodies for the fixed keyword vocabulary, title-casing matches, and
adds sender domains occurring in more than one message.  `from_email.split('@')[1]`
raises `IndexError` when an address has no `@`; that is the `.error` case. -/
def expand_terms (messages : List Message) (current_terms : List String) :
    Except Unit (List String) :=
  let all_text := " ".intercalate (messages.map (fun m => m.body))
  let lower := pyLower all_text
  let keywordAdds := (expandKeywords.filter (fun k => strContains lower k)).map pyTitle
  let domains? := messages.map (fun m => (pySplitOn m.from_email "@").get? 1)
  if (none : Option String) ∈ domains? then
    Except.error ()
  else
    let sender_domains := domains?.reduceOption
    let common_domains := sender_domains.filter
      (fun d => 1 < sender_domains.count d)
    Except.ok (dedupKeepFirst (current_terms ++ keywordAdds ++ common_domains))

/-- `_calculate_precision_proxy` (runner.py, lines 553–574): fraction of
the iteration's messages whose lowercased `subject body` text contains at
least one fixed domain term; `0` when no messages. -/
def calculate_precision_proxy (messages : List Message) : ℚ :=
  if messages.isEmpty then 0
  else
    let domain_terms := ["coolsculpting", "elite", "return", "rma", "thermal",
      "sensor", "freight", "packaging", "credit", "allergan", "abbvie"]
    let matching_messages := messages.countP (fun m =>
      domain_terms.any (fun t =>
        strContains (pyLower (m.subject ++ " " ++ m.body)) t))
    (matching_messages : ℚ) / (messages.length : ℚ)

/-! ## Query planner (runner.py) -/

/-- The constraint string shared by `_generate_seed_queries` and
`_generate_expanded_queries` (runner.py, lines 346–356 and 380–390):
date-after, date-before, and a `from:` OR-group over sender domains;
Python truthiness skips empty strings and empty lists. -/
def constraint_str (config : RunConfig) : String :=
  let afterC := match config.after with
    | some a => if a = "" then [] else ["after:" ++ a]
    | none => []
  let beforeC := match config.before with
    | some b => if b = "" then [] else ["before:" ++ b]
    | none => []
  let domainsC := match config.domains with
    | some ds =>
      if ds = [] then []
      else ["(" ++ " OR ".intercalate (ds.map (fun d => "from:" ++ d)) ++ ")"]
    | none => []
  " ".intercalate (afterC ++ beforeC ++ domainsC)

/-- The five fixed seed query patterns of `_generate_seed_queries`
(runner.py, lines 358–365). -/
def seedPatterns : List String :=
  ["(\"return\" OR \"RMA\" OR \"ship back\" OR \"pickup\" OR \"return label\") (\"CoolSculpting Elite\")",
   "(\"CoolSculpting\" AND \"Elite\") AND (\"thermal\" OR \"sensor\" OR \"E-47\" OR \"error\")",
   "(\"packaging\" OR \"crate\" OR \"freight\" OR \"LTL\") (\"CoolSculpting\")",
   "(\"credit\" OR \"refund\" OR \"credit memo\") (\"CoolSculpting Elite\")",
   "(\"P3\" OR \"protocol\") AND (\"CoolSculpting\")"]

/-- `_generate_seed_queries` (runner.py, lines 335–371): each pattern,
space-joined with the constraint string, stripped.  (The `key_terms`
computed by the source at line 342 are never used.) -/
def generate_seed_queries (config : RunConfig) : List String :=
  seedPatterns.map (fun pattern => pyStrip (pattern ++ " " ++ constraint_str config))

/-- One disjunctive quoted-term query over the first three terms of a
bucket (runner.py, lines 403–416). -/
def bucketQuery (bucket : List String) (constraint : String) : String :=
  let quoted_terms := (bucket.take 3).map (fun term => "\"" ++ term ++ "\"")
  pyStrip ("(" ++ " OR ".intercalate quoted_terms ++ ") " ++ constraint)

/-- `_generate_expanded_queries` (runner.py, lines 373–418): partition the
current term list into logistics / error / process buckets by keyword
membership, one query per non-empty bucket, at most three queries. -/
def generate_expanded_queries (terms : List String) (config : RunConfig) :
    List String :=
  let logistics_terms := terms.filter (fun t =>
    ["ship", "freight", "label", "pickup", "crate", "ltl"].any
      (fun word => strContains (pyLower t) word))
  let error_terms := terms.filter (fun t =>
    ["error", "e-47", "thermal", "sensor", "p3"].any
      (fun word => strContains (pyLower t) word))
  let process_terms := terms.filter (fun t =>
    ["rma", "return", "credit", "refund"].any
      (fun word => strContains (pyLower t) word))
  let c := constraint_str config
  let queries :=
    (if logistics_terms = [] then [] else [bucketQuery logistics_terms c]) ++
    (if error_terms = [] then [] else [bucketQuery error_terms c]) ++
    (if process_terms = [] then [] else [bucketQuery process_terms c])
  queries.take 3

/-- `_generate_queries` (runner.py, lines 314–333): seed queries at
iteration 0, expanded queries afterwards, each wrapped in a `QueryPlan`
with rationale `"Iteration {i} query"` and `est_hits = 0`. -/
def generate_queries (terms : List String) (iteration : ℕ)
    (config : RunConfig) : List QueryPlan :=
  let queries :=
    if iteration = 0 then generate_seed_queries config
    else generate_expanded_queries terms config
  queries.map (fun q => ⟨q, s!"Iteration {iteration} query", 0⟩)

/-! ## Persistence helpers (runner.py) -/

/-- `_store_query` (runner.py, lines 480–506): the row appended to the
`queries` table; `exec_ms` is hard-coded `0`. -/
def store_query (run_id : String) (iteration : ℕ) (query_str rationale : String)
    (hits new_msgs new_threads : ℕ) : QueryRow :=
  ⟨run_id, iteration, query_str, rationale, hits, new_msgs, new_threads, 0⟩

/-- `_store_term_expansion` (runner.py, lines 508–531): rows carry the set
differences `added = list(set(new) − set(old))` and
`removed = list(set(old) − set(new))` plus the full evidence term list. -/
def store_term_expansion (run_id : String) (iteration : ℕ)
    (new_terms old_terms : List String) : TermExpansionRow :=
  ⟨run_id, iteration,
   (dedupKeepFirst new_terms).filter (fun t => t ∉ old_terms),
   (dedupKeepFirst old_terms).filter (fun t => t ∉ new_terms),
   new_terms⟩

/-- `_store_messages` (runner.py, lines 533–551): one `messages` row per
fetched message, in fetch order. -/
def store_messages (run_id : String) (messages : List Message) : List DBMessage :=
  messages.map (fun msg =>
    { run_id := run_id, gmail_id := msg.gmail_id, thread_id := msg.thread_id,
      date := msg.date, from_email := msg.from_email, subject := msg.subject,
      labels_json := msg.labels, snippet := msg.snippet })

/-! ## Stopping rule (runner.py, lines 576–595) -/

/-- `_check_stopping_conditions`: with fewer than two iterations never
stop; otherwise stop when novelty-gain was below the configured minimum in
both of the last two iterations (reason mentions `novelty`), else when
precision-proxy was below its minimum in both (reason mentions
`precision`).  The reason strings interpolate the configured minima; `ℚ`
rendering stands in for Python float formatting. -/
def check_stopping_conditions (metrics : List IterationMetrics)
    (config : RunConfig) : Bool × Option String :=
  if metrics.length < 2 then (false, none)
  else
    let last_two := metrics.drop (metrics.length - 2)
    if last_two.all (fun m => m.novelty_gain < config.min_novelty_gain) then
      (true, some ("novelty<" ++ toString config.min_novelty_gain ++ " for 2 rounds"))
    else if last_two.all (fun m => m.precision_proxy < config.min_precision) then
      (true, some ("precision<" ++ toString config.min_precision ++ " for 2 rounds"))
    else (false, none)

/-! ## The retrieval loop (`_iterative_retrieval`, runner.py lines 182–312) -/

/-- The Gmail provider as consumed by the loop (`GmailProvider` interface):
both calls may raise `ProviderError`, modelled as `Except.error`. -/
structure GmailEnv where
  search : String → Except Unit (List MessageMeta)
  fetch_bodies : List String → Except Unit (List Message)

/-- The cooperative `should_stop` / `is_paused` flags.  They are mutated
by `pause_run` / `cancel_run` concurrently with the loop; we model the
value each flag has when the loop reads it at the top of iteration `i`
(flags set between iterations are represented exactly). -/
structure Signals where
  should_stop : ℕ → Bool
  is_paused : ℕ → Bool

/-- The controller's loop-local state plus the database tables it appends
to: `seen_messages` / `seen_threads` (runner.py, lines 189–190),
`current_terms`, the metrics list and the persisted rows. -/
structure LoopState where
  seen_messages : Finset String
  seen_threads : Finset String
  current_terms : List String
  metrics : List IterationMetrics
  queries_db : List QueryRow
  terms_db : List TermExpansionRow
  messages_db : List DBMessage
deriving DecidableEq

/-- The `for query_plan in queries` loop of one iteration
(runner.py, lines 211–240): per query, search; on a provider error print
and `continue` (nothing stored); otherwise filter out already-seen ids
against the iteration-start snapshot of `seen_messages`, fetch bodies of
the new ones (a fetch error also skips the query), extend the iteration's
message list, store a `QueryRow` and count the query as tried. -/
def runQueries (env : GmailEnv) (run_id : String) (iteration : ℕ)
    (seen : Finset String) (stop_flag : Bool) :
    List QueryPlan → List Message × ℕ × List QueryRow
  | [] => ([], 0, [])
  | query_plan :: rest =>
    if stop_flag then ([], 0, [])
    else
      match env.search query_plan.query_str with
      | Except.error _ => runQueries env run_id iteration seen stop_flag rest
      | Except.ok message_metas =>
        let new_messages := message_metas.filter
          (fun m => m.gmail_id ∉ seen)
        let fetched : Except Unit (List Message) :=
          if new_messages.isEmpty then Except.ok []
          else env.fetch_bodies (new_messages.map (fun m => m.gmail_id))
        match fetched with
        | Except.error _ => runQueries env run_id iteration seen stop_flag rest
        | Except.ok full_messages =>
          let qrow := store_query run_id iteration query_plan.query_str
            query_plan.rationale message_metas.length new_messages.length
            ((new_messages.map (fun m => m.thread_id)).toFinset.card)
          let tail := runQueries env run_id iteration seen stop_flag rest
          (full_messages ++ tail.1, tail.2.1 + 1, qrow :: tail.2.2)

/-- Result of one iteration body: the iteration's fetched messages, tried
query count, persisted query rows, metrics entry and updated state. -/
structure IterStep where
  messages : List Message
  queries_tried : ℕ
  qrows : List QueryRow
  metrics_entry : IterationMetrics
  st' : LoopState
deriving DecidableEq

/-- One iteration body of `_iterative_retrieval` up to the stopping check
(runner.py, lines 197–283): run the planner's queries, compute
`new = results − seen` by id against the iteration-start snapshot, union
the new message/thread ids into the seen-sets, persist the fetched
messages, and compute the precision-proxy and novelty-gain metrics
(`novelty = |new threads| / max(|seen threads|, 1)` after the union). -/
def iterationStep (env : GmailEnv) (sig : Signals) (config : RunConfig)
    (run_id : String) (i : ℕ) (st : LoopState) : IterStep :=
  let res := runQueries env run_id i st.seen_messages (sig.should_stop i)
    (generate_queries st.current_terms i config)
  let iteration_messages := res.1
  let new_msg_ids :=
    (iteration_messages.map (fun m => m.gmail_id)).toFinset \ st.seen_messages
  let new_thread_ids :=
    (iteration_messages.map (fun m => m.thread_id)).toFinset \ st.seen_threads
  let seen_messages := st.seen_messages ∪ new_msg_ids
  let seen_threads := st.seen_threads ∪ new_thread_ids
  let iter_metrics : IterationMetrics :=
    ⟨i, res.2.1, new_msg_ids.card, new_thread_ids.card, 0,
     calculate_precision_proxy iteration_messages,
     (new_thread_ids.card : ℚ) / ((max seen_threads.card 1 : ℕ) : ℚ), 0, none⟩
  ⟨iteration_messages, res.2.1, res.2.2, iter_metrics,
   { st with
     seen_messages := seen_messages, seen_threads := seen_threads,
     metrics := st.metrics ++ [iter_metrics],
     queries_db := st.queries_db ++ res.2.2,
     messages_db := st.messages_db ++ store_messages run_id iteration_messages }⟩

/-- The `for iteration in range(max_iters)` loop of `_iterative_retrieval`
(runner.py, lines 193–311), with `fuel` the number of remaining range
elements and `i` the current index: check the cooperative flags at the top
of the iteration, run the body, evaluate the stopping conditions once at
least two iterations exist (recording the reason on the final metrics
entry and breaking), otherwise expand terms for the next iteration (except
after the last one).  Returns the final state and whether an uncaught
exception escaped the loop (term expansion's `IndexError`), which
`execute_run` turns into `Failed`. -/
def loopGo (env : GmailEnv) (sig : Signals) (config : RunConfig)
    (run_id : String) : ℕ → ℕ → LoopState → LoopState × Bool
  | _, 0, st => (st, false)
  | i, fuel + 1, st =>
    if sig.should_stop i || sig.is_paused i then (st, false)
    else if 1 ≤ i ∧ (check_stopping_conditions
        (iterationStep env sig config run_id i st).st'.metrics config).1 then
      ({ (iterationStep env sig config run_id i st).st' with
         metrics := st.metrics ++
           [{ (iterationStep env sig config run_id i st).metrics_entry with
              stop_reason := (check_stopping_conditions
                (iterationStep env sig config run_id i st).st'.metrics config).2 }] },
       false)
    else if i < config.max_iters - 1 then
      match expand_terms (iterationStep env sig config run_id i st).messages
          st.current_terms with
      | Except.error _ => ((iterationStep env sig config run_id i st).st', true)
      | Except.ok expanded_terms =>
        loopGo env sig config run_id (i + 1) fuel
          { (iterationStep env sig config run_id i st).st' with
            terms_db := (iterationStep env sig config run_id i st).st'.terms_db ++
              [store_term_expansion run_id (i + 1) expanded_terms st.current_terms],
            current_terms := expanded_terms }
    else loopGo env sig config run_id (i + 1) fuel
      (iterationStep env sig config run_id i st).st'

/-- `_iterative_retrieval`: fresh seen-sets and initial terms, loop over
`range(config.max_iters)`. -/
def iterative_retrieval (env : GmailEnv) (sig : Signals) (config : RunConfig)
    (run_id : String) : LoopState × Bool :=
  loopGo env sig config run_id 0 config.max_iters
    ⟨∅, ∅, extract_initial_terms config.question, [], [], [], []⟩

/-! ## Phase/status state machine & control surface
(runner.py, lines 114–180 and 766–799) -/

/-- `_update_run_status` (runner.py, lines 766–784): sets the new status
unconditionally and, when an error message is given, records it under the
run's metrics. -/
def update_run_status (run : RunRow) (status : RunStatus)
    (error_msg : Option String := none) : RunRow :=
  { run with
    status := status,
    metrics_error := match error_msg with
      | some e => some e
      | none => run.metrics_error }

/-- The orchestrator's two cooperative flags (`self.should_stop`,
`self.is_paused`). -/
structure OrchFlags where
  should_stop : Bool
  is_paused : Bool
deriving DecidableEq, Repr

/-- `pause_run` (runner.py, lines 786–789): set the pause flag, set status
`Paused`. -/
def pause_run (flags : OrchFlags) (run : RunRow) : OrchFlags × RunRow :=
  ({ flags with is_paused := true }, update_run_status run RunStatus.paused)

/-- `resume_run` (runner.py, lines 791–794): clears the pause flag only;
no saved loop state is restored ("Continue execution would require more
complex state management"). -/
def resume_run (flags : OrchFlags) : OrchFlags :=
  { flags with is_paused := false }

/-- `cancel_run` (runner.py, lines 796–799): set the stop flag, set status
`Cancelled`. -/
def cancel_run (flags : OrchFlags) (run : RunRow) : OrchFlags × RunRow :=
  ({ flags with should_stop := true }, update_run_status run RunStatus.cancelled)

/-- Result of one `execute_run` invocation: the sequence of statuses
written to the run row (in order), the loop state, and the failure flag. -/
structure ExecResult where
  statuses : List RunStatus
  loop : LoopState
  failed : Bool
deriving DecidableEq

/-- `execute_run` / `_execute_run_phases` (runner.py, lines 114–180):
always starts the phase sequence from the top — status `Fetching`, then a
fresh `_iterative_retrieval` from iteration 0; an exception escaping the
loop marks the run `Failed`; a pending cancel yields `Cancelled`; otherwise
the remaining phases run and `_finalize_run` writes `Done`.  The
normalization / ranking / summarization data effects are modelled by the
standalone stage functions elsewhere in this file. -/
def execute_run (env : GmailEnv) (sig : Signals) (config : RunConfig)
    (run_id : String) : ExecResult :=
  let res := iterative_retrieval env sig config run_id
  let st := res.1
  if res.2 then
    ⟨[RunStatus.fetching, RunStatus.failed], st, true⟩
  else if sig.should_stop st.metrics.length then
    ⟨[RunStatus.fetching, RunStatus.cancelled], st, false⟩
  else
    ⟨[RunStatus.fetching, RunStatus.normalizing, RunStatus.ranking,
      RunStatus.summarizing, RunStatus.exporting, RunStatus.done], st, false⟩

/-! ## Hybrid ranking stage (`_hybrid_ranking`, runner.py lines 636–685)
and summarization grouping (`_generate_summaries`, lines 687–730) -/

/-- `ScoredCandidate` dataclass (interfaces.py, lines 53–59); the unused
`metadata` field is omitted and the optional score is always set by the
orchestrator. -/
structure ScoredCandidate where
  id : String
  text : String
  score : ℚ
deriving DecidableEq, Repr

/-- Row of the `chunks` table (simple_db.py, lines 172–192).  The three
score columns are nullable floats filled in by the ranking stage; their
pre-ranking value is irrelevant to every property proved below and is
defaulted to `0`. -/
structure ChunkRow where
  run_id : String
  chunk_id : String
  gmail_id : String
  idx : ℕ
  text : String
  token_count : ℕ
  bm25_score : ℚ := 0
  knn_score : ℚ := 0
  rerank_score : ℚ := 0
  selected : Bool := false
deriving DecidableEq, Repr

/-- The deterministic scoring providers consumed by the ranking stage.
`bm25_search texts ids question top_k` models `bm25.index(texts, ids)`
followed by `bm25.search(question, top_k)` as a pure function of the
indexed corpus; likewise `vector_search` over the indexed embeddings.
`embed` is the batch embedding call and `rerank` the reranker. -/
structure RankEnv where
  bm25_search : List String → List String → String → ℕ → List (String × ℚ)
  embed : List String → List (List ℚ)
  vector_search : List (List ℚ) → List String → List ℚ → ℕ → List (String × ℚ)
  rerank : String → List ScoredCandidate → List ScoredCandidate

/-- First score pass of `_hybrid_ranking` (lines 662–664): write the BM25
and vector scores onto each chunk, defaulting a missing id to `0.0`. -/
def scorePass (bm25_scores vector_scores : List (String × ℚ))
    (chunk : ChunkRow) : ChunkRow :=
  { chunk with
    bm25_score := dictGet bm25_scores chunk.chunk_id,
    knn_score := dictGet vector_scores chunk.chunk_id }

/-- The candidate list handed to the reranker (lines 667–674): every chunk
with the blended score `bm25 * 0.7 + knn * 0.3`. -/
def rankingCandidates (chunks : List ChunkRow) : List ScoredCandidate :=
  chunks.map (fun chunk =>
    ⟨chunk.chunk_id, chunk.text,
     chunk.bm25_score * (7/10) + chunk.knn_score * (3/10)⟩)

/-- Final pass of `_hybrid_ranking` (lines 679–681): the reranker's score
overwrites the blended score (missing ids get `0.0`), and a chunk is
selected exactly when that score exceeds the fixed `0.1` threshold. -/
def rerankPass (rerank_scores : List (String × ℚ)) (chunk : ChunkRow) : ChunkRow :=
  { chunk with
    rerank_score := dictGet rerank_scores chunk.chunk_id,
    selected := dictGet rerank_scores chunk.chunk_id > 1/10 }

/-- `_hybrid_ranking`: index all chunk texts, search both indexes with the
question (lexical top 100, vector top 50), blend, rerank, select.  Empty
chunk set: early return. -/
def hybrid_ranking (env : RankEnv) (question : String)
    (chunks : List ChunkRow) : List ChunkRow :=
  if chunks.isEmpty then chunks
  else
    let texts := chunks.map (fun c => c.text)
    let chunk_ids := chunks.map (fun c => c.chunk_id)
    let bm25_scores := env.bm25_search texts chunk_ids question 100
    let embeddings := env.embed texts
    let question_embedding := env.embed [question]
    let vector_scores :=
      env.vector_search embeddings chunk_ids (question_embedding.getD 0 []) 50
    let chunks1 := chunks.map (scorePass bm25_scores vector_scores)
    let candidates := rankingCandidates chunks1
    let reranked := env.rerank question candidates
    let rerank_scores := reranked.map (fun c => (c.id, c.score))
    chunks1.map (rerankPass rerank_scores)

/-- Row of the `summaries` table (simple_db.py, lines 214–223); the
LLM-produced bullet payload is carried opaquely. -/
structure SummaryRow where
  run_id : String
  thread_id : String
  summary_md : String
  bullets_json : List String
  confidence : ℚ
deriving DecidableEq, Repr

/-- `_generate_summaries` (runner.py, lines 687–730): take the run's
chunks with `selected == True`, group them by the owning message's thread
id (chunks whose message is missing from the lookup are dropped), and ask
the summarizer once per thread; confidence is hard-coded `0.8`.
`llm_summarize` is the `LLMProvider.summarize` collaborator. -/
def generate_summaries (llm_summarize : List String → String → String × List String)
    (run_id question : String) (chunks : List ChunkRow)
    (messages : List DBMessage) : List SummaryRow :=
  let selected_chunks := chunks.filter (fun c => c.selected)
  let msg_lookup : String → Option DBMessage := fun gid =>
    (messages.reverse).find? (fun m => m.gmail_id == gid)
  let withThread := selected_chunks.filterMap (fun c =>
    (msg_lookup c.gmail_id).map (fun m => (m.thread_id, c)))
  let thread_ids := dedupKeepFirst (withThread.map (fun p => p.1))
  thread_ids.map (fun thread_id =>
    let chunk_texts := (withThread.filter (fun p => p.1 == thread_id)).map
      (fun p => p.2.text)
    let res := llm_summarize chunk_texts question
    ⟨run_id, thread_id, res.1, res.2, 4/5⟩)

/-! ## Concrete evaluation fixtures

Small closed providers, signal schedules and configurations used by the
witness and counterexample theorems below to evaluate the model on
concrete runs. -/

/-- A Gmail provider whose every call raises `ProviderError`. -/
def errEnv : GmailEnv := ⟨fun _ => Except.error (), fun _ => Except.error ()⟩

/-- A fixed message metadata record. -/
def sampleMeta : MessageMeta := ⟨"X", "T", "d1", "pat@clinic.example", "", [], ""⟩

/-- The fixed message with body. -/
def sampleMsg : Message := ⟨sampleMeta, ""⟩

/-- A Gmail provider returning the same single message for every search
query, with a well-behaved body fetch. -/
def dupEnv : GmailEnv :=
  ⟨fun _ => Except.ok [sampleMeta], fun _ => Except.ok [sampleMsg]⟩

/-- No cancel or pause signal, ever. -/
def quietSig : Signals := ⟨fun _ => false, fun _ => false⟩

/-- `pause` invoked between iteration 0 and iteration 1: the pause flag
reads false at the top of iteration 0 and true from iteration 1 on. -/
def pauseAfterZeroSig : Signals := ⟨fun _ => false, fun i => 1 ≤ i⟩

/-- A default configuration for the question `"q"`. -/
def baseConfig : RunConfig := { question := "q" }

/-- The same configuration limited to a single iteration. -/
def oneIterConfig : RunConfig := { question := "q", max_iters := 1 }

/-- A freshly queued run row. -/
def queuedRun : RunRow := { run_id := "r", question := "q", status := RunStatus.queued }

/-- A run row already in the terminal `Done` state. -/
def doneRun : RunRow := { run_id := "r", question := "q", status := RunStatus.done }

/-! ## Predicates for the stopping rule -/

/-- Novelty-gain below the configured minimum in both of two consecutive
iterations. -/
abbrev bothBelowNovelty (a b : IterationMetrics) (config : RunConfig) : Prop :=
  a.novelty_gain < config.min_novelty_gain ∧ b.novelty_gain < config.min_novelty_gain

/-- Precision-proxy below the configured minimum in both of two consecutive
iterations. -/
abbrev bothBelowPrecision (a b : IterationMetrics) (config : RunConfig) : Prop :=
  a.precision_proxy < config.min_precision ∧ b.precision_proxy < config.min_precision

/-- No two consecutive entries of a metrics list are jointly below either
configured threshold — the state of a run the stopping rule has let
continue. -/
abbrev noFailingPair (m : List IterationMetrics) (config : RunConfig) : Prop :=
  ∀ j a b, m[j]? = some a → m[j + 1]? = some b →
    ¬ bothBelowNovelty a b config ∧ ¬ bothBelowPrecision a b config

/-! ### Chunking lemmas -/

lemma ceilDivNat_of_le {n b : ℕ} (h1 : 1 ≤ n) (h2 : n ≤ b) : ceilDivNat n b = 1 := by
  unfold ceilDivNat
  have hb : 1 ≤ b := le_trans h1 h2
  rw [Nat.div_eq_of_lt_le] <;> omega

lemma ceilDivNat_of_lt {n b : ℕ} (hb : 1 ≤ b) (h : b < n) :
    ceilDivNat n b = 1 + ceilDivNat (n - b) b := by
  unfold ceilDivNat
  have h1 : n + b - 1 = (n - b + b - 1) + b := by omega
  rw [h1, Nat.add_div_right _ hb]
  omega

/-- Chunk count from an arbitrary start position. -/
lemma chunkWordsGo_length (ws : List String) (C O : ℕ) (hO : O < C) :
    ∀ fuel start, ws.length - start ≤ fuel → start + O < ws.length →
      (chunkWordsGo ws C O start).length =
        ceilDivNat (ws.length - start - O) (C - O) := by
  intro fuel
  induction fuel with
  | zero => intro start hf hlt; omega
  | succ n ih =>
    intro start hf hlt
    have hstart : start < ws.length := by omega
    rw [chunkWordsGo]
    rw [dif_pos hstart]
    by_cases hend : ws.length ≤ start + C
    · rw [if_pos hend]
      simp only [List.length_singleton]
      rw [ceilDivNat_of_le] <;> omega
    · push_neg at hend
      rw [if_neg (not_le.mpr hend)]
      simp only [List.length_cons]
      have hmax : max (start + C - O) (start + 1) = start + (C - O) := by omega
      have h1 : ws.length - (start + (C - O)) ≤ n := by omega
      have h2 : start + (C - O) + O < ws.length := by omega
      have harg : ws.length - (start + (C - O)) - O =
          ws.length - start - O - (C - O) := by omega
      rw [hmax, ih (start + (C - O)) h1 h2, harg]
      rw [show ceilDivNat (ws.length - start - O) (C - O) =
            1 + ceilDivNat (ws.length - start - O - (C - O)) (C - O) from
          ceilDivNat_of_lt (by omega) (by omega)]
      omega

/-- Auxiliary reconstruction fact: dropping the first `O` words of every
chunk produced from position `start` and concatenating yields the word
suffix starting at `start + O`. -/
lemma chunkWordsGo_drop_flatten (ws : List String) (C O : ℕ) (hO : O < C) :
    ∀ fuel start, ws.length - start ≤ fuel →
      ((chunkWordsGo ws C O start).map (fun l => l.drop O)).flatten =
        ws.drop (start + O) := by
  intro fuel
  induction fuel with
  | zero =>
    intro start hf
    have hstart : ¬ start < ws.length := by omega
    rw [chunkWordsGo, dif_neg hstart]
    simp only [List.map_nil, List.flatten_nil]
    rw [eq_comm, List.drop_eq_nil_iff]
    omega
  | succ n ih =>
    intro start hf
    by_cases hstart : start < ws.length
    · rw [chunkWordsGo, dif_pos hstart]
      by_cases hend : ws.length ≤ start + C
      · rw [if_pos hend]
        simp only [List.map_cons, List.map_nil, List.flatten_cons,
          List.flatten_nil, List.append_nil]
        rw [List.drop_take, List.drop_drop]
        rw [List.take_of_length_le (by simp; omega)]
      · push_neg at hend
        rw [if_neg (not_le.mpr hend)]
        have hmax : max (start + C - O) (start + 1) = start + (C - O) := by omega
        simp only [List.map_cons, List.flatten_cons]
        rw [hmax, ih (start + (C - O)) (by omega)]
        rw [List.drop_take, List.drop_drop]
        have hsplit : ws.drop (start + O) =
            (ws.drop (start + O)).take (C - O) ++ (ws.drop (start + O)).drop (C - O) := by
          rw [List.take_append_drop]
        conv_rhs => rw [hsplit]
        congr 1
        rw [List.drop_drop]
        congr 1
        omega
    · rw [chunkWordsGo, dif_neg hstart]
      simp only [List.map_nil, List.flatten_nil]
      rw [eq_comm, List.drop_eq_nil_iff]
      omega

/-- Every chunk produced by the word-level loop is non-empty. -/
lemma chunkWordsGo_ne_nil (ws : List String) (C O : ℕ) (hC : 1 ≤ C) :
    ∀ fuel start, ws.length - start ≤ fuel →
      ∀ c ∈ chunkWordsGo ws C O start, c ≠ [] := by
  intro fuel
  induction fuel with
  | zero =>
    intro start hf c hc
    have hstart : ¬ start < ws.length := by omega
    rw [chunkWordsGo, dif_neg hstart] at hc
    simp at hc
  | succ n ih =>
    intro start hf c hc
    by_cases hstart : start < ws.length
    · rw [chunkWordsGo, dif_pos hstart] at hc
      by_cases hend : ws.length ≤ start + C
      · rw [if_pos hend] at hc
        simp only [List.mem_singleton] at hc
        subst hc
        simp only [ne_eq, List.take_eq_nil_iff, List.drop_eq_nil_iff]
        push_neg
        omega
      · rw [if_neg hend] at hc
        rcases List.mem_cons.mp hc with h | h
        · subst h
          simp only [ne_eq, List.take_eq_nil_iff, List.drop_eq_nil_iff]
          push_neg
          omega
        · exact ih _ (by
            have : start + 1 ≤ max (start + C - O) (start + 1) := le_max_right _ _
            omega) c h
    · rw [chunkWordsGo, dif_neg hstart] at hc
      simp at hc

/-- Full reconstruction: the first chunk followed by every later chunk with
its leading `O`-word overlap removed is exactly the original word list. -/
lemma dropOverlaps_chunkWords (ws : List String) (C O : ℕ) (hO : O < C) :
    dropOverlaps O (chunkWords ws C O) = ws := by
  unfold chunkWords
  rw [chunkWordsGo]
  by_cases h0 : 0 < ws.length
  · rw [dif_pos h0]
    by_cases hend : ws.length ≤ 0 + C
    · rw [if_pos hend]
      simp only [dropOverlaps, List.map_nil, List.flatten_nil, List.append_nil,
        List.drop_zero]
      exact List.take_of_length_le (by omega)
    · push_neg at hend
      rw [if_neg (not_le.mpr hend)]
      simp only [dropOverlaps]
      have hmax : max (0 + C - O) (0 + 1) = 0 + (C - O) := by omega
      rw [hmax, chunkWordsGo_drop_flatten ws C O hO ws.length (0 + (C - O)) (by omega)]
      simp only [List.drop_zero]
      have harg : 0 + (C - O) + O = C := by omega
      rw [harg]
      exact List.take_append_drop C ws
  · rw [dif_neg (by omega)]
    have hnil : ws = [] := List.eq_nil_of_length_eq_zero (by omega)
    simp [dropOverlaps, hnil]

/-! ## General helper lemmas -/

lemma mem_dedupKeepFirst {x : String} :
    ∀ {l : List String}, x ∈ dedupKeepFirst l ↔ x ∈ l := by
  intro l
  induction l with
  | nil => simp [dedupKeepFirst]
  | cons a as ih =>
    simp only [dedupKeepFirst, List.mem_cons, List.mem_filter,
      decide_eq_true_eq]
    constructor
    · rintro (h | ⟨h1, h2⟩)
      · exact Or.inl h
      · exact Or.inr (ih.mp h1)
    · rintro (h | h)
      · exact Or.inl h
      · by_cases hx : x = a
        · exact Or.inl hx
        · exact Or.inr ⟨ih.mpr h, hx⟩

/-- A key absent from the score pairs gets the default `0`. -/
lemma dictGet_eq_zero {pairs : List (String × ℚ)} {k : String}
    (h : k ∉ pairs.map Prod.fst) : dictGet pairs k = 0 := by
  unfold dictGet
  have hlookup : ∀ (l : List (String × ℚ)), k ∉ l.map Prod.fst →
      l.lookup k = none := by
    intro l
    induction l with
    | nil => intro _; rfl
    | cons p ps ih =>
      intro hm
      simp only [List.map_cons, List.mem_cons, not_or] at hm
      obtain ⟨pk, pv⟩ := p
      have hne : (k == pk) = false := beq_eq_false_iff_ne.mpr hm.1
      simp [List.lookup, hne, ih hm.2]
  rw [hlookup pairs.reverse (by simpa [List.map_reverse] using h)]
  rfl

/-! ## Lemmas on the iteration step (all definitional) -/

lemma iterationStep_metrics (env : GmailEnv) (sig : Signals)
    (config : RunConfig) (rid : String) (i : ℕ) (st : LoopState) :
    (iterationStep env sig config rid i st).st'.metrics =
      st.metrics ++ [(iterationStep env sig config rid i st).metrics_entry] := rfl

lemma iterationStep_entry_reason (env : GmailEnv) (sig : Signals)
    (config : RunConfig) (rid : String) (i : ℕ) (st : LoopState) :
    (iterationStep env sig config rid i st).metrics_entry.stop_reason = none := rfl

lemma iterationStep_entry_iteration (env : GmailEnv) (sig : Signals)
    (config : RunConfig) (rid : String) (i : ℕ) (st : LoopState) :
    (iterationStep env sig config rid i st).metrics_entry.iteration = i := rfl

lemma iterationStep_terms_db (env : GmailEnv) (sig : Signals)
    (config : RunConfig) (rid : String) (i : ℕ) (st : LoopState) :
    (iterationStep env sig config rid i st).st'.terms_db = st.terms_db := rfl

lemma iterationStep_current_terms (env : GmailEnv) (sig : Signals)
    (config : RunConfig) (rid : String) (i : ℕ) (st : LoopState) :
    (iterationStep env sig config rid i st).st'.current_terms =
      st.current_terms := rfl

lemma iterationStep_messages_db (env : GmailEnv) (sig : Signals)
    (config : RunConfig) (rid : String) (i : ℕ) (st : LoopState) :
    (iterationStep env sig config rid i st).st'.messages_db =
      st.messages_db ++
        store_messages rid (iterationStep env sig config rid i st).messages := rfl

lemma iterationStep_seen_messages (env : GmailEnv) (sig : Signals)
    (config : RunConfig) (rid : String) (i : ℕ) (st : LoopState) :
    (iterationStep env sig config rid i st).st'.seen_messages =
      st.seen_messages ∪
        (((iterationStep env sig config rid i st).messages.map
          (fun m => m.gmail_id)).toFinset \ st.seen_messages) := rfl

lemma iterationStep_entry_novelty (env : GmailEnv) (sig : Signals)
    (config : RunConfig) (rid : String) (i : ℕ) (st : LoopState) :
    (iterationStep env sig config rid i st).metrics_entry.novelty_gain =
      ((((iterationStep env sig config rid i st).messages.map
          (fun m => m.thread_id)).toFinset \ st.seen_threads).card : ℚ) /
        ((max (st.seen_threads ∪
          (((iterationStep env sig config rid i st).messages.map
            (fun m => m.thread_id)).toFinset \ st.seen_threads)).card 1 : ℕ) : ℚ) := rfl

/-! ## Chunking claim (C5) and terminal-status claim (C7) -/

/-- C5 (counterexample): the claim says a message shorter than one chunk
size — including an empty one — yields exactly one chunk; but
`chunk_text` returns no chunks at all for empty text
(`if not text: return []`, text_processing.py line 90). -/
theorem C5_counterexample :
    chunk_text "" 800 100 = [] ∧ (chunk_text "" 800 100).length ≠ 1 := by
  decide

/-- C5 (amended): for non-empty text of `L` words with `overlap < chunk_size`:
at most `chunk_size` words give exactly the one chunk `[text]`; more than
`chunk_size` words give `ceil((L − O)/(C − O))` chunks, none of them empty,
and concatenating the word-level chunks with the `O`-word overlaps removed
reconstructs the original word sequence. -/
theorem C5_amended (text : String) (C O : ℕ) (hO : O < C) (ht : text ≠ "") :
    ((pySplit text).length ≤ C → chunk_text text C O = [text]) ∧
    (C < (pySplit text).length →
      chunk_text text C O =
        (chunkWords (pySplit text) C O).map (fun c => " ".intercalate c) ∧
      (chunk_text text C O).length = ceilDivNat ((pySplit text).length - O) (C - O) ∧
      dropOverlaps O (chunkWords (pySplit text) C O) = pySplit text ∧
      ∀ c ∈ chunkWords (pySplit text) C O, c ≠ []) := by
  constructor
  · intro hle
    simp [chunk_text, ht, hle]
  · intro hgt
    have hni : ¬ (pySplit text).length ≤ C := not_le.mpr hgt
    have hmap : chunk_text text C O =
        (chunkWords (pySplit text) C O).map (fun c => " ".intercalate c) := by
      simp [chunk_text, ht, hni]
    refine ⟨hmap, ?_, dropOverlaps_chunkWords _ C O hO,
      fun c hc => chunkWordsGo_ne_nil _ C O (by omega) (pySplit text).length 0
        (by omega) c hc⟩
    rw [hmap, List.length_map]
    unfold chunkWords
    rw [chunkWordsGo_length (pySplit text) C O hO (pySplit text).length 0
      (by omega) (by omega)]
    congr 2

/-- C5 (witness): the amended claim evaluated at the 5-word text
`"a b c d e"` with chunk size 2 and overlap 1. -/
theorem C5_amended_witness :
    chunk_text "a b c d e" 2 1 =
      (chunkWords (pySplit "a b c d e") 2 1).map (fun c => " ".intercalate c) ∧
    (chunk_text "a b c d e" 2 1).length =
      ceilDivNat ((pySplit "a b c d e").length - 1) (2 - 1) ∧
    dropOverlaps 1 (chunkWords (pySplit "a b c d e") 2 1) = pySplit "a b c d e" := by
  have h := (C5_amended "a b c d e" 2 1 (by decide) (by decide)).2 (by decide)
  exact ⟨h.1, h.2.1, h.2.2.1⟩

/-- C7 (counterexample): the claim says a run in a terminal state never
changes status again, but `_update_run_status` has no terminal-state
guard — invoking `pause_run` on a `Done` run overwrites its status with
`Paused`. -/
theorem C7_counterexample :
    (pause_run ⟨false, false⟩ doneRun).2.status = RunStatus.paused ∧
      RunStatus.paused ≠ RunStatus.done := by
  decide

/-- C7 (amended): status updates are unconditional — `_update_run_status`
always writes the requested status, and `pause_run` / `cancel_run` set
`Paused` / `Cancelled` whatever the run's current status, terminal states
included. -/
theorem C7_amended (run : RunRow) (status : RunStatus)
    (error_msg : Option String) (flags : OrchFlags) :
    (update_run_status run status error_msg).status = status ∧
    (pause_run flags run).2.status = RunStatus.paused ∧
    (cancel_run flags run).2.status = RunStatus.cancelled :=
  ⟨rfl, rfl, rfl⟩

/-! ## The generic loop invariant -/

/-- Any state predicate preserved by the iteration body, by the
stop-reason patch and by the term-expansion commit is an invariant of the
whole retrieval loop. -/
lemma loopGo_invariant (env : GmailEnv) (sig : Signals) (config : RunConfig)
    (rid : String) (P : LoopState → Prop)
    (hstep : ∀ i st, P st → P (iterationStep env sig config rid i st).st')
    (hstop : ∀ i st, P st →
      P { (iterationStep env sig config rid i st).st' with
          metrics := st.metrics ++
            [{ (iterationStep env sig config rid i st).metrics_entry with
               stop_reason := (check_stopping_conditions
                 (iterationStep env sig config rid i st).st'.metrics config).2 }] })
    (hexpand : ∀ i st expanded_terms,
      expand_terms (iterationStep env sig config rid i st).messages
        st.current_terms = Except.ok expanded_terms →
      P st →
      P { (iterationStep env sig config rid i st).st' with
          terms_db := (iterationStep env sig config rid i st).st'.terms_db ++
            [store_term_expansion rid (i + 1) expanded_terms st.current_terms],
          current_terms := expanded_terms }) :
    ∀ fuel i st, P st → P (loopGo env sig config rid i fuel st).1 := by
  intro fuel
  induction fuel with
  | zero => intro i st h; exact h
  | succ n ih =>
    intro i st h
    rw [loopGo]
    split
    · exact h
    · split
      · exact hstop i st h
      · split
        · split
          · exact hstep i st h
          · next expanded_terms heq =>
            exact ih (i + 1) _ (hexpand i st expanded_terms heq h)
        · exact ih (i + 1) _ (hstep i st h)

/-- The loop only ever appends to the metrics list. -/
lemma loopGo_metrics_prefix (env : GmailEnv) (sig : Signals)
    (config : RunConfig) (rid : String) :
    ∀ fuel i st, ∃ tl,
      (loopGo env sig config rid i fuel st).1.metrics = st.metrics ++ tl := by
  intro fuel
  induction fuel with
  | zero => intro i st; exact ⟨[], by simp [loopGo]⟩
  | succ n ih =>
    intro i st
    rw [loopGo]
    split
    · exact ⟨[], by simp⟩
    · split
      · exact ⟨_, rfl⟩
      · split
        · split
          · exact ⟨_, iterationStep_metrics env sig config rid i st⟩
          · next expanded_terms heq =>
            obtain ⟨tl, htl⟩ := ih (i + 1)
              { (iterationStep env sig config rid i st).st' with
                terms_db := (iterationStep env sig config rid i st).st'.terms_db ++
                  [store_term_expansion rid (i + 1) expanded_terms st.current_terms],
                current_terms := expanded_terms }
            refine ⟨(iterationStep env sig config rid i st).metrics_entry :: tl, ?_⟩
            rw [htl]
            show (iterationStep env sig config rid i st).st'.metrics ++ tl = _
            rw [iterationStep_metrics]
            simp
        · obtain ⟨tl, htl⟩ := ih (i + 1) (iterationStep env sig config rid i st).st'
          refine ⟨(iterationStep env sig config rid i st).metrics_entry :: tl, ?_⟩
          rw [htl, iterationStep_metrics]
          simp

/-! ## Term expansion lemmas (C8) -/

/-- When `_expand_terms` returns, its result contains every current term:
the source only ever adds to `expanded = set(current_terms)`. -/
lemma expand_terms_superset {messages : List Message}
    {current_terms expanded : List String}
    (h : expand_terms messages current_terms = Except.ok expanded) :
    ∀ t ∈ current_terms, t ∈ expanded := by
  simp only [expand_terms] at h
  split at h
  · exact absurd h (by simp)
  · intro t ht
    obtain rfl : dedupKeepFirst _ = expanded := Except.ok.inj h
    exact mem_dedupKeepFirst.mpr (by simp [ht])

/-- The removed-terms delta persisted by `_store_term_expansion` is empty
whenever the new term set contains the old one. -/
lemma store_term_expansion_removed_nil {rid : String} {i : ℕ}
    {new_terms old_terms : List String}
    (hsub : ∀ t ∈ old_terms, t ∈ new_terms) :
    (store_term_expansion rid i new_terms old_terms).removed_terms_json = [] := by
  unfold store_term_expansion
  apply List.filter_eq_nil_iff.mpr
  intro t ht
  have htold : t ∈ old_terms := mem_dedupKeepFirst.mp ht
  simp [hsub t htold]

/-- C8: term expansion is monotone — `expand_terms` never drops a term
from the active set (it only unions keyword and domain matches into it),
`_store_term_expansion` therefore records an empty removed-terms delta for
it, and consequently every `TermExpansionRecord` persisted by any run of
the retrieval loop has an empty removed-terms delta. -/
theorem C8_expand_terms_monotone (run_id : String) (iteration : ℕ)
    (messages : List Message) (current_terms expanded : List String)
    (h : expand_terms messages current_terms = Except.ok expanded) :
    (∀ t ∈ current_terms, t ∈ expanded) ∧
    (store_term_expansion run_id iteration expanded current_terms).removed_terms_json
      = [] ∧
    ∀ (env : GmailEnv) (sig : Signals) (config : RunConfig) (rid : String),
      ∀ row ∈ (iterative_retrieval env sig config rid).1.terms_db,
        row.removed_terms_json = [] := by
  refine ⟨expand_terms_superset h,
    store_term_expansion_removed_nil (expand_terms_superset h), ?_⟩
  intro env sig config rid
  have := loopGo_invariant env sig config rid
    (fun st => ∀ row ∈ st.terms_db, row.removed_terms_json = [])
    (fun i st hP row hrow => hP row hrow)
    (fun i st hP row hrow => hP row hrow)
    (fun i st expanded_terms heq hP row hrow => by
      rcases List.mem_append.mp hrow with hold | hnew
      · exact hP row hold
      · rw [List.mem_singleton.mp hnew]
        exact store_term_expansion_removed_nil (expand_terms_superset heq))
    config.max_iters 0
    ⟨∅, ∅, extract_initial_terms config.question, [], [], [], []⟩
    (by intro row hrow; simp at hrow)
  exact this

/-- C8 (witness): the monotonicity theorem evaluated at the empty message
list over the one-term set `["RMA"]`, plus the terms row persisted in a
concrete run of the loop. -/
theorem C8_expand_terms_monotone_witness :
    ("RMA" ∈ (["RMA"] : List String)) ∧
    (store_term_expansion "r" 1 ["RMA"] ["RMA"]).removed_terms_json = [] ∧
    ((iterative_retrieval errEnv quietSig baseConfig "r").1.terms_db.getD 0
      ⟨"", 0, [], [], []⟩).removed_terms_json = [] := by
  have h := C8_expand_terms_monotone "r" 1 [] ["RMA"] ["RMA"] (by decide)
  refine ⟨h.1 "RMA" (by decide), h.2.1, ?_⟩
  exact h.2.2 errEnv quietSig baseConfig "r" _ (by decide)

/-! ## Message dedup claim (C1) -/

/-- `_store_messages` rows keep their messages' gmail ids, in order. -/
lemma store_messages_map_gmail_id (rid : String) (messages : List Message) :
    (store_messages rid messages).map (fun m => m.gmail_id) =
      messages.map (fun m => m.gmail_id) := by
  unfold store_messages
  rw [List.map_map]
  rfl

/-- C1 (counterexample): with a provider returning the same message for
every query, each of the five seed queries of iteration 0 treats the
message as new — `seen_messages` is only updated after the per-query loop —
so the single message is fetched and persisted five times, refuting
"a message returned by two different queries within the same iteration is
fetched, counted, and persisted only once"; the distinct-id count still
equals `|seen_messages| = 1`. -/
theorem C1_counterexample :
    ((iterative_retrieval dupEnv quietSig oneIterConfig "r").1.messages_db.map
      (fun m => m.gmail_id)).count "X" = 5 ∧
    (iterative_retrieval dupEnv quietSig oneIterConfig "r").1.seen_messages.card
      = 1 := by
  decide

/-- C1 (amended): for every run, the set of distinct message ids persisted
across all iterations coincides with the controller's `seen_messages` set —
so `|seen_messages| = |distinct MessageRecord ids|`, and a message id is
never counted as new twice; however a message returned by several queries
within one iteration is persisted once per returning query (duplicate
rows with the same id), since the seen-set snapshot is only updated at the
iteration boundary. -/
theorem C1_amended (env : GmailEnv) (sig : Signals) (config : RunConfig)
    (rid : String) :
    (((iterative_retrieval env sig config rid).1.messages_db.map
        (fun m => m.gmail_id)).toFinset =
      (iterative_retrieval env sig config rid).1.seen_messages) ∧
    ((iterative_retrieval env sig config rid).1.messages_db.map
        (fun m => m.gmail_id)).toFinset.card =
      (iterative_retrieval env sig config rid).1.seen_messages.card := by
  have hbody : ∀ i st,
      (st.messages_db.map (fun m => m.gmail_id)).toFinset = st.seen_messages →
      ((st.messages_db ++
          store_messages rid (iterationStep env sig config rid i st).messages).map
          (fun m => m.gmail_id)).toFinset =
        st.seen_messages ∪
          (((iterationStep env sig config rid i st).messages.map
            (fun m => m.gmail_id)).toFinset \ st.seen_messages) := by
    intro i st hP
    rw [List.map_append, List.toFinset_append, store_messages_map_gmail_id, hP,
      Finset.union_sdiff_self_eq_union]
  have key := loopGo_invariant env sig config rid
    (fun st =>
      (st.messages_db.map (fun m => m.gmail_id)).toFinset = st.seen_messages)
    (fun i st hP => hbody i st hP)
    (fun i st hP => hbody i st hP)
    (fun i st expanded_terms heq hP => hbody i st hP)
    config.max_iters 0
    ⟨∅, ∅, extract_initial_terms config.question, [], [], [], []⟩
    (by simp)
  exact ⟨key, congrArg Finset.card key⟩

/-! ## Novelty-gain bounds claim (C10) -/

/-- The novelty-gain computed by one iteration lies in `[0, 1]`: the new
thread ids are a subset of the union already folded into `seen_threads`,
and the denominator is guarded to be at least `1`. -/
lemma iterationStep_novelty_bounds (env : GmailEnv) (sig : Signals)
    (config : RunConfig) (rid : String) (i : ℕ) (st : LoopState) :
    0 ≤ (iterationStep env sig config rid i st).metrics_entry.novelty_gain ∧
    (iterationStep env sig config rid i st).metrics_entry.novelty_gain ≤ 1 := by
  rw [iterationStep_entry_novelty]
  constructor
  · exact div_nonneg (Nat.cast_nonneg _) (Nat.cast_nonneg _)
  · rw [div_le_one]
    · have h1 : (((iterationStep env sig config rid i st).messages.map
          (fun m => m.thread_id)).toFinset \ st.seen_threads).card ≤
          (st.seen_threads ∪
            (((iterationStep env sig config rid i st).messages.map
              (fun m => m.thread_id)).toFinset \ st.seen_threads)).card :=
        Finset.card_le_card Finset.subset_union_right
      have h2 := le_max_left (st.seen_threads ∪
        (((iterationStep env sig config rid i st).messages.map
          (fun m => m.thread_id)).toFinset \ st.seen_threads)).card 1
      exact_mod_cast le_trans h1 h2
    · have h3 := le_max_right (st.seen_threads ∪
        (((iterationStep env sig config rid i st).messages.map
          (fun m => m.thread_id)).toFinset \ st.seen_threads)).card 1
      exact_mod_cast Nat.lt_of_lt_of_le Nat.zero_lt_one h3

/-- C10: for every iteration of every run, the computed novelty-gain lies
in `[0, 1]` — the seen-threads set is unioned with the iteration's new
thread ids before the gain is computed, so the guarded denominator
`max(|seen_threads|, 1)` is at least the numerator. -/
theorem C10_novelty_gain_bounds (env : GmailEnv) (sig : Signals)
    (config : RunConfig) (rid : String) :
    ∀ m ∈ (iterative_retrieval env sig config rid).1.metrics,
      0 ≤ m.novelty_gain ∧ m.novelty_gain ≤ 1 := by
  have key := loopGo_invariant env sig config rid
    (fun st => ∀ m ∈ st.metrics, 0 ≤ m.novelty_gain ∧ m.novelty_gain ≤ 1)
    (fun i st hP m hm => by
      rw [iterationStep_metrics] at hm
      rcases List.mem_append.mp hm with hold | hnew
      · exact hP m hold
      · rw [List.mem_singleton.mp hnew]
        exact iterationStep_novelty_bounds env sig config rid i st)
    (fun i st hP m hm => by
      rcases List.mem_append.mp hm with hold | hnew
      · exact hP m hold
      · rw [List.mem_singleton.mp hnew]
        exact iterationStep_novelty_bounds env sig config rid i st)
    (fun i st expanded_terms heq hP m hm => by
      rw [iterationStep_metrics] at hm
      rcases List.mem_append.mp hm with hold | hnew
      · exact hP m hold
      · rw [List.mem_singleton.mp hnew]
        exact iterationStep_novelty_bounds env sig config rid i st)
    config.max_iters 0
    ⟨∅, ∅, extract_initial_terms config.question, [], [], [], []⟩
    (by simp)
  exact key

/-- C10 (witness): the bounds evaluated on the first metrics entry of a
concrete run. -/
theorem C10_novelty_gain_bounds_witness :
    0 ≤ ((iterative_retrieval errEnv quietSig baseConfig "r").1.metrics.getD 0
      ⟨0, 0, 0, 0, 0, 0, 0, 0, none⟩).novelty_gain ∧
    ((iterative_retrieval errEnv quietSig baseConfig "r").1.metrics.getD 0
      ⟨0, 0, 0, 0, 0, 0, 0, 0, none⟩).novelty_gain ≤ 1 :=
  C10_novelty_gain_bounds errEnv quietSig baseConfig "r" _ (by decide)

/-! ## Pause/resume claim (C3) -/

/-- Started with an empty metrics list, the first metrics entry the loop
ever produces carries the starting iteration index. -/
lemma loopGo_head_iteration (env : GmailEnv) (sig : Signals)
    (config : RunConfig) (rid : String) :
    ∀ fuel i st, st.metrics = [] → ∀ m,
      (loopGo env sig config rid i fuel st).1.metrics.head? = some m →
      m.iteration = i := by
  intro fuel i st h0 m hm
  cases fuel with
  | zero =>
    rw [show loopGo env sig config rid i 0 st = (st, false) from rfl] at hm
    rw [h0] at hm
    simp at hm
  | succ n =>
    rw [loopGo] at hm
    split at hm
    · rw [h0] at hm; simp at hm
    · split at hm
      · have hm' : (st.metrics ++
            [{ (iterationStep env sig config rid i st).metrics_entry with
               stop_reason := (check_stopping_conditions
                 (iterationStep env sig config rid i st).st'.metrics config).2 }]).head?
            = some m := hm
        rw [h0] at hm'
        simp only [List.nil_append, List.head?_cons, Option.some_inj] at hm'
        subst hm'
        rfl
      · split at hm
        · split at hm
          · have hm' : ((st.metrics ++
                [(iterationStep env sig config rid i st).metrics_entry]).head?)
                = some m := hm
            rw [h0] at hm'
            simp only [List.nil_append, List.head?_cons, Option.some_inj] at hm'
            subst hm'
            rfl
          · next expanded_terms heq =>
            obtain ⟨tl, htl⟩ := loopGo_metrics_prefix env sig config rid n (i + 1)
              { (iterationStep env sig config rid i st).st' with
                terms_db := (iterationStep env sig config rid i st).st'.terms_db ++
                  [store_term_expansion rid (i + 1) expanded_terms st.current_terms],
                current_terms := expanded_terms }
            rw [htl] at hm
            have hm' : (((st.metrics ++
                [(iterationStep env sig config rid i st).metrics_entry]) ++ tl).head?)
                = some m := hm
            rw [h0] at hm'
            simp only [List.nil_append, List.cons_append, List.head?_cons,
              Option.some_inj] at hm'
            subst hm'
            rfl
        · obtain ⟨tl, htl⟩ := loopGo_metrics_prefix env sig config rid n (i + 1)
            (iterationStep env sig config rid i st).st'
          rw [htl] at hm
          have hm' : (((st.metrics ++
              [(iterationStep env sig config rid i st).metrics_entry]) ++ tl).head?)
              = some m := hm
          rw [h0] at hm'
          simp only [List.nil_append, List.cons_append, List.head?_cons,
            Option.some_inj] at hm'
          subst hm'
          rfl

/-- C3 (counterexample): with the pause flag raised between iteration 0
and 1, the loop runs iteration 0 only and `pause_run` sets status
`Paused` — but after `resume_run` (which only clears the flag) a renewed
`execute_run` starts its retrieval loop at iteration 0 again, not at
iteration 1 as the claim requires. -/
theorem C3_counterexample :
    ((execute_run errEnv pauseAfterZeroSig baseConfig "r").loop.metrics.map
      (fun m => m.iteration)) = [0] ∧
    (pause_run ⟨false, false⟩ queuedRun).2.status = RunStatus.paused ∧
    (resume_run (pause_run ⟨false, false⟩ queuedRun).1).is_paused = false ∧
    ((execute_run errEnv quietSig baseConfig "r").loop.metrics.map
      (fun m => m.iteration)).head? = some 0 ∧ (0 : ℕ) ≠ 1 := by
  decide

/-- C3 (amended): `pause_run` sets the run's status to `Paused` and raises
the cooperative flag, which halts the loop at the next iteration boundary;
`resume_run` merely clears the flag — no loop state is saved or restored —
so re-invoking `execute_run` always restarts retrieval from iteration 0
with fresh seen-sets and initial terms, not from iteration 1. -/
theorem C3_amended (env : GmailEnv) (sig : Signals) (config : RunConfig)
    (rid : String) (flags : OrchFlags) (run : RunRow) :
    (pause_run flags run).2.status = RunStatus.paused ∧
    (pause_run flags run).1.is_paused = true ∧
    (resume_run flags).is_paused = false ∧
    ∀ m, (execute_run env sig config rid).loop.metrics.head? = some m →
      m.iteration = 0 := by
  refine ⟨rfl, rfl, rfl, ?_⟩
  intro m hm
  have hloop : (execute_run env sig config rid).loop =
      (iterative_retrieval env sig config rid).1 := by
    simp only [execute_run]
    split
    · rfl
    · split <;> rfl
  rw [hloop] at hm
  exact loopGo_head_iteration env sig config rid config.max_iters 0 _ rfl m hm

/-- C3 (witness): the amended claim evaluated on a concrete renewed
execution — its first executed iteration is 0. -/
theorem C3_amended_witness :
    ((execute_run errEnv quietSig baseConfig "r").loop.metrics.getD 0
      ⟨7, 0, 0, 0, 0, 0, 0, 0, none⟩).iteration = 0 :=
  (C3_amended errEnv quietSig baseConfig "r" ⟨false, false⟩ queuedRun).2.2.2 _
    (by decide)

/-! ## Error-handling claim (C4) -/

/-- When every search raises, the per-query loop produces no messages, no
tried queries and — crucially — no `QueryRow` at all. -/
lemma runQueries_all_error (env : GmailEnv) (rid : String) (i : ℕ)
    (seen : Finset String) (stop_flag : Bool) (qps : List QueryPlan)
    (hs : ∀ qp ∈ qps, env.search qp.query_str = Except.error ()) :
    runQueries env rid i seen stop_flag qps = ([], 0, []) := by
  induction qps with
  | nil => rfl
  | cons qp rest ih =>
    rw [runQueries]
    by_cases hf : stop_flag = true
    · rw [if_pos hf]
    · rw [if_neg hf, hs qp (List.mem_cons_self qp rest)]
      exact ih (fun q hq => hs q (List.mem_cons_of_mem qp hq))

/-- Expanding over no fetched messages returns the (deduplicated) current
term set unchanged: no keyword matches the empty text and there are no
sender domains. -/
lemma expand_terms_nil (terms : List String) :
    expand_terms [] terms = Except.ok (dedupKeepFirst terms) := by
  have h : expand_terms [] terms =
      Except.ok (dedupKeepFirst ((terms ++ []) ++ [])) := rfl
  rw [h, List.append_nil, List.append_nil]

/-- With an all-error search provider and no stop signal, one iteration
body leaves the seen-sets, the query rows and the message rows unchanged
and records an all-zero metrics entry. -/
lemma iterationStep_all_error (env : GmailEnv) (sig : Signals)
    (config : RunConfig) (rid : String)
    (hs : ∀ q, env.search q = Except.error ()) (i : ℕ) (st : LoopState) :
    iterationStep env sig config rid i st =
      ⟨[], 0, [], ⟨i, 0, 0, 0, 0, 0, 0, 0, none⟩,
       { st with metrics := st.metrics ++ [⟨i, 0, 0, 0, 0, 0, 0, 0, none⟩] }⟩ := by
  have hrq := runQueries_all_error env rid i st.seen_messages
    (sig.should_stop i) (generate_queries st.current_terms i config)
    (fun qp _ => hs qp.query_str)
  simp only [iterationStep, hrq]
  simp [store_messages, calculate_precision_proxy, IterStep.mk.injEq]

/-- The full retrieval loop with an all-error provider, quiet signals, at
least two configured iterations and a positive novelty minimum: iteration
0 finds nothing, one term-expansion row is stored, iteration 1 finds
nothing again and the trailing-window novelty rule stops the run; nothing
is ever persisted in the `queries` or `messages` tables and no exception
escapes. -/
lemma loop_all_error_result (env : GmailEnv) (sig : Signals)
    (config : RunConfig) (rid : String)
    (hs : ∀ q, env.search q = Except.error ())
    (hsig : ∀ i, sig.should_stop i = false ∧ sig.is_paused i = false)
    (hmax : 2 ≤ config.max_iters) (hmin : 0 < config.min_novelty_gain) :
    iterative_retrieval env sig config rid =
      ({ seen_messages := ∅, seen_threads := ∅,
         current_terms := dedupKeepFirst (extract_initial_terms config.question),
         metrics := [⟨0, 0, 0, 0, 0, 0, 0, 0, none⟩,
           ⟨1, 0, 0, 0, 0, 0, 0, 0,
            some ("novelty<" ++ toString config.min_novelty_gain ++ " for 2 rounds")⟩],
         queries_db := [],
         terms_db := [store_term_expansion rid 1
           (dedupKeepFirst (extract_initial_terms config.question))
           (extract_initial_terms config.question)],
         messages_db := [] }, false) := by
  obtain ⟨f, hf⟩ : ∃ f, config.max_iters = f + 2 :=
    ⟨config.max_iters - 2, by omega⟩
  have hcheck : check_stopping_conditions
      [⟨0, 0, 0, 0, 0, 0, 0, 0, none⟩, ⟨1, 0, 0, 0, 0, 0, 0, 0, none⟩] config =
      (true, some ("novelty<" ++ toString config.min_novelty_gain ++
        " for 2 rounds")) := by
    unfold check_stopping_conditions
    rw [if_neg (by simp)]
    simp [hmin]
  unfold iterative_retrieval
  rw [hf]
  rw [loopGo]
  rw [if_neg (by simp [(hsig 0).1, (hsig 0).2])]
  rw [iterationStep_all_error env sig config rid hs 0]
  dsimp only
  rw [if_neg (by simp)]
  rw [if_pos (show 0 < config.max_iters - 1 by omega)]
  rw [expand_terms_nil]
  dsimp only
  rw [loopGo]
  rw [if_neg (by simp [(hsig 1).1, (hsig 1).2])]
  rw [iterationStep_all_error env sig config rid hs 1]
  dsimp only [List.cons_append, List.nil_append]
  rw [if_pos ⟨le_refl 1, by rw [hcheck]⟩]
  rw [hcheck]

/-- C4 (counterexample): every one of the five seed queries of iteration 0
fails, and no `QueryRow` is persisted at all — `_store_query` sits inside
the `try` block after the search call, so a failed query leaves no
QueryRecord, contradicting "a QueryRecord is persisted for the failed
query regardless of success (with zero hits)". -/
theorem C4_counterexample :
    (generate_queries (extract_initial_terms "q") 0 baseConfig).length = 5 ∧
    (iterative_retrieval errEnv quietSig baseConfig "r").1.queries_db = [] := by
  decide

/-- C4 (amended): a provider error on a query makes the loop skip that
query entirely — no QueryRecord is persisted for it — and continue; even
when every query of iteration 0 fails, the run still reaches iteration 1
and never transitions to `Failed` (the phase sequence completes normally).
Stated for any all-error provider, quiet signals, at least two configured
iterations and a positive novelty minimum. -/
theorem C4_amended (env : GmailEnv) (sig : Signals) (config : RunConfig)
    (rid : String)
    (hs : ∀ q, env.search q = Except.error ())
    (hsig : ∀ i, sig.should_stop i = false ∧ sig.is_paused i = false)
    (hmax : 2 ≤ config.max_iters) (hmin : 0 < config.min_novelty_gain) :
    (iterative_retrieval env sig config rid).1.queries_db = [] ∧
    (∃ m ∈ (iterative_retrieval env sig config rid).1.metrics, m.iteration = 1) ∧
    (execute_run env sig config rid).failed = false ∧
    RunStatus.failed ∉ (execute_run env sig config rid).statuses := by
  have hres := loop_all_error_result env sig config rid hs hsig hmax hmin
  have hexec : execute_run env sig config rid =
      ⟨[RunStatus.fetching, RunStatus.normalizing, RunStatus.ranking,
        RunStatus.summarizing, RunStatus.exporting, RunStatus.done],
       (iterative_retrieval env sig config rid).1, false⟩ := by
    unfold execute_run
    rw [hres]
    dsimp only
    rw [if_neg (by simp)]
    rw [(hsig _).1]
    rw [if_neg (by simp)]
  refine ⟨?_, ?_, ?_, ?_⟩
  · rw [hres]
  · rw [hres]
    exact ⟨⟨1, 0, 0, 0, 0, 0, 0, 0,
      some ("novelty<" ++ toString config.min_novelty_gain ++ " for 2 rounds")⟩,
      by simp, rfl⟩
  · rw [hexec]
  · rw [hexec]
    show RunStatus.failed ∉ [RunStatus.fetching, RunStatus.normalizing,
      RunStatus.ranking, RunStatus.summarizing, RunStatus.exporting,
      RunStatus.done]
    decide

/-- C4 (witness): the amended claim evaluated on the concrete all-error
provider. -/
theorem C4_amended_witness :
    (iterative_retrieval errEnv quietSig baseConfig "r").1.queries_db = [] ∧
    (∃ m ∈ (iterative_retrieval errEnv quietSig baseConfig "r").1.metrics,
      m.iteration = 1) ∧
    (execute_run errEnv quietSig baseConfig "r").failed = false ∧
    RunStatus.failed ∉ (execute_run errEnv quietSig baseConfig "r").statuses :=
  C4_amended errEnv quietSig baseConfig "r" (fun q => rfl)
    (fun i => ⟨rfl, rfl⟩) (by decide) (by decide)

/-! ## Ranking claims (C6, C9) -/

/-- Scoring fixtures for the ranking witnesses: a lexical index scoring the
one chunk `1`, an empty vector index, and an identity reranker. -/
def rankFixtureEnv : RankEnv :=
  ⟨fun _ _ _ _ => [("c1", 1)],
   fun texts => texts.map (fun _ => [0]),
   fun _ _ _ _ => [],
   fun _ candidates => candidates⟩

/-- A single stored chunk row for the ranking witnesses. -/
def sampleChunk : ChunkRow :=
  { run_id := "r", chunk_id := "c1", gmail_id := "X", idx := 0,
    text := "t", token_count := 1 }

/-- C6: in the ranking stage, every chunk's pre-rerank (blended) score is
`0.7 * lexical + 0.3 * vector` with a score missing from either index
defaulting to `0` (`dictGet`); the reranker's returned score overwrites
the blend as the final rerank score, with `0` for any chunk the reranker
filtered out; a chunk is selected exactly when that score exceeds `0.1`;
and every chunk row survives ranking (same ids, unselected rows included)
while `_generate_summaries` reads only the selected ones, so unselected
chunks contribute to no thread summary. -/
theorem C6_blend_rerank_select (env : RankEnv) (question : String)
    (chunks : List ChunkRow)
    (llm_summarize : List String → String → String × List String)
    (rid : String) (messages : List DBMessage) :
    (rankingCandidates (chunks.map (scorePass
        (env.bm25_search (chunks.map (fun c => c.text))
          (chunks.map (fun c => c.chunk_id)) question 100)
        (env.vector_search (env.embed (chunks.map (fun c => c.text)))
          (chunks.map (fun c => c.chunk_id))
          ((env.embed [question]).getD 0 []) 50))) =
      chunks.map (fun c =>
        ⟨c.chunk_id, c.text,
         (7/10) * dictGet (env.bm25_search (chunks.map (fun c => c.text))
             (chunks.map (fun c => c.chunk_id)) question 100) c.chunk_id +
         (3/10) * dictGet (env.vector_search (env.embed (chunks.map (fun c => c.text)))
             (chunks.map (fun c => c.chunk_id))
             ((env.embed [question]).getD 0 []) 50) c.chunk_id⟩)) ∧
    (∀ c ∈ hybrid_ranking env question chunks,
      c.rerank_score = dictGet
        ((env.rerank question (rankingCandidates (chunks.map (scorePass
            (env.bm25_search (chunks.map (fun c => c.text))
              (chunks.map (fun c => c.chunk_id)) question 100)
            (env.vector_search (env.embed (chunks.map (fun c => c.text)))
              (chunks.map (fun c => c.chunk_id))
              ((env.embed [question]).getD 0 []) 50))))).map
          (fun c => (c.id, c.score))) c.chunk_id ∧
      (c.chunk_id ∉ (env.rerank question (rankingCandidates (chunks.map (scorePass
            (env.bm25_search (chunks.map (fun c => c.text))
              (chunks.map (fun c => c.chunk_id)) question 100)
            (env.vector_search (env.embed (chunks.map (fun c => c.text)))
              (chunks.map (fun c => c.chunk_id))
              ((env.embed [question]).getD 0 []) 50))))).map (fun c => c.id) →
        c.rerank_score = 0) ∧
      (c.selected = true ↔ c.rerank_score > 1/10)) ∧
    ((hybrid_ranking env question chunks).map (fun c => c.chunk_id) =
      chunks.map (fun c => c.chunk_id)) ∧
    (generate_summaries llm_summarize rid question
        (hybrid_ranking env question chunks) messages =
      generate_summaries llm_summarize rid question
        ((hybrid_ranking env question chunks).filter (fun c => c.selected))
        messages) := by
  refine ⟨?_, ?_, ?_, ?_⟩
  · unfold rankingCandidates
    rw [List.map_map]
    apply List.map_congr_left
    intro c hc
    simp only [Function.comp_apply, scorePass, ScoredCandidate.mk.injEq, true_and]
    ring
  · intro c hc
    unfold hybrid_ranking at hc
    by_cases hemp : chunks.isEmpty
    · rw [if_pos hemp] at hc
      rw [List.isEmpty_iff.mp hemp] at hc
      simp at hc
    · rw [if_neg hemp] at hc
      obtain ⟨c1, hc1, rfl⟩ := List.mem_map.mp hc
      refine ⟨rfl, ?_, ?_⟩
      · intro hnot
        show dictGet _ _ = 0
        apply dictGet_eq_zero
        rw [List.map_map]
        exact hnot
      · simp only [rerankPass, decide_eq_true_eq]
  · unfold hybrid_ranking
    by_cases hemp : chunks.isEmpty
    · rw [if_pos hemp]
    · rw [if_neg hemp, List.map_map, List.map_map]
      rfl
  · simp only [generate_summaries, List.filter_filter, Bool.and_self]

/-- C6 (witness): the selection rule evaluated on the single-chunk fixture
(lexical score 1, no vector score, identity reranker). -/
theorem C6_blend_rerank_select_witness :
    (((hybrid_ranking rankFixtureEnv "q" [sampleChunk]).getD 0
        sampleChunk).selected = true ↔
      ((hybrid_ranking rankFixtureEnv "q" [sampleChunk]).getD 0
        sampleChunk).rerank_score > 1/10) :=
  ((C6_blend_rerank_select rankFixtureEnv "q" [sampleChunk]
      (fun texts _ => ("", texts)) "r" []).2.1 _ (by decide)).2.2

/-- C9: with deterministic providers the ranking stage is a pure function
of the question and the chunk set, and it is idempotent — re-running
`_hybrid_ranking` on its own output reproduces the output exactly, in
particular identical selection flags on every chunk. -/
theorem C9_ranking_idempotent (env : RankEnv) (question : String)
    (chunks : List ChunkRow) :
    hybrid_ranking env question (hybrid_ranking env question chunks) =
      hybrid_ranking env question chunks ∧
    (hybrid_ranking env question (hybrid_ranking env question chunks)).map
        (fun c => c.selected) =
      (hybrid_ranking env question chunks).map (fun c => c.selected) := by
  have h : hybrid_ranking env question (hybrid_ranking env question chunks) =
      hybrid_ranking env question chunks := by
    by_cases hemp : chunks.isEmpty
    · rw [List.isEmpty_iff.mp hemp]
      rfl
    · have hout : hybrid_ranking env question chunks =
          chunks.map (fun c => rerankPass
            ((env.rerank question (rankingCandidates (chunks.map (scorePass
                (env.bm25_search (chunks.map (fun c => c.text))
                  (chunks.map (fun c => c.chunk_id)) question 100)
                (env.vector_search (env.embed (chunks.map (fun c => c.text)))
                  (chunks.map (fun c => c.chunk_id))
                  ((env.embed [question]).getD 0 []) 50))))).map
              (fun c => (c.id, c.score)))
            (scorePass
              (env.bm25_search (chunks.map (fun c => c.text))
                (chunks.map (fun c => c.chunk_id)) question 100)
              (env.vector_search (env.embed (chunks.map (fun c => c.text)))
                (chunks.map (fun c => c.chunk_id))
                ((env.embed [question]).getD 0 []) 50) c)) := by
        simp only [hybrid_ranking]
        rw [if_neg hemp, List.map_map]
        rfl
      rw [hout]
      generalize hbm : env.bm25_search (chunks.map (fun c => c.text))
        (chunks.map (fun c => c.chunk_id)) question 100 = bm
      generalize hvec : env.vector_search (env.embed (chunks.map (fun c => c.text)))
        (chunks.map (fun c => c.chunk_id)) ((env.embed [question]).getD 0 []) 50 = vec
      generalize hrs : (env.rerank question (rankingCandidates
        (chunks.map (scorePass bm vec)))).map (fun c => (c.id, c.score)) = rs
      have hne2 : ¬ (chunks.map
          (fun c => rerankPass rs (scorePass bm vec c))).isEmpty := by
        simpa using hemp
      simp only [hybrid_ranking]
      rw [if_neg hne2]
      have hT : (chunks.map (fun c => rerankPass rs (scorePass bm vec c))).map
          (fun c => c.text) = chunks.map (fun c => c.text) := by
        rw [List.map_map]
        rfl
      have hI : (chunks.map (fun c => rerankPass rs (scorePass bm vec c))).map
          (fun c => c.chunk_id) = chunks.map (fun c => c.chunk_id) := by
        rw [List.map_map]
        rfl
      rw [hT, hI, hbm, hvec]
      simp only [List.map_map]
      have hRC : rankingCandidates (chunks.map ((scorePass bm vec) ∘
          (fun c => rerankPass rs (scorePass bm vec c)))) =
          rankingCandidates (chunks.map (scorePass bm vec)) := by
        unfold rankingCandidates
        simp only [List.map_map]
        rfl
      rw [hRC, hrs]
      rfl
  exact ⟨h, by rw [h]⟩

/-! ## The stopping rule (C2) -/

/-- With fewer than two completed iterations the stopping check never
fires (runner.py, lines 582–583). -/
lemma check_short (metrics : List IterationMetrics) (config : RunConfig)
    (h : metrics.length < 2) :
    check_stopping_conditions metrics config = (false, none) := by
  unfold check_stopping_conditions
  rw [if_pos h]

/-- When the trailing two metrics entries are both below the novelty
minimum, the check fires with the novelty reason. -/
lemma check_fire_novelty (metrics : List IterationMetrics) (config : RunConfig)
    (a b : IterationMetrics)
    (h : metrics.drop (metrics.length - 2) = [a, b])
    (hn : bothBelowNovelty a b config) :
    check_stopping_conditions metrics config =
      (true, some ("novelty<" ++ toString config.min_novelty_gain ++
        " for 2 rounds")) := by
  have hlen : ¬ metrics.length < 2 := by
    intro hc
    have hd := congrArg List.length h
    rw [List.length_drop] at hd
    simp at hd
    omega
  have hall : (metrics.drop (metrics.length - 2)).all
      (fun m => m.novelty_gain < config.min_novelty_gain) = true := by
    rw [h]
    simp only [List.all_cons, List.all_nil, Bool.and_true, Bool.and_eq_true,
      decide_eq_true_eq]
    exact hn
  unfold check_stopping_conditions
  rw [if_neg hlen]
  simp [hall]

/-- When the trailing two entries are not both below the novelty minimum
but are both below the precision minimum, the check fires with the
precision reason. -/
lemma check_fire_precision (metrics : List IterationMetrics)
    (config : RunConfig) (a b : IterationMetrics)
    (h : metrics.drop (metrics.length - 2) = [a, b])
    (hn : ¬ bothBelowNovelty a b config)
    (hp : bothBelowPrecision a b config) :
    check_stopping_conditions metrics config =
      (true, some ("precision<" ++ toString config.min_precision ++
        " for 2 rounds")) := by
  have hlen : ¬ metrics.length < 2 := by
    intro hc
    have hd := congrArg List.length h
    rw [List.length_drop] at hd
    simp at hd
    omega
  have hnall : ¬ ((metrics.drop (metrics.length - 2)).all
      (fun m => m.novelty_gain < config.min_novelty_gain) = true) := by
    rw [h]
    simp only [List.all_cons, List.all_nil, Bool.and_true, Bool.and_eq_true,
      decide_eq_true_eq]
    exact hn
  have hall : (metrics.drop (metrics.length - 2)).all
      (fun m => m.precision_proxy < config.min_precision) = true := by
    rw [h]
    simp only [List.all_cons, List.all_nil, Bool.and_true, Bool.and_eq_true,
      decide_eq_true_eq]
    exact hp
  unfold check_stopping_conditions
  rw [if_neg hlen]
  simp [hnall, hall]

/-- When the trailing two entries fail neither jointly-below condition,
the check does not fire — a single iteration above threshold resets the
trailing two-iteration window. -/
lemma check_none (metrics : List IterationMetrics) (config : RunConfig)
    (a b : IterationMetrics)
    (h : metrics.drop (metrics.length - 2) = [a, b])
    (hn : ¬ bothBelowNovelty a b config)
    (hp : ¬ bothBelowPrecision a b config) :
    check_stopping_conditions metrics config = (false, none) := by
  by_cases hlen : metrics.length < 2
  · exact check_short metrics config hlen
  have hnall : ¬ ((metrics.drop (metrics.length - 2)).all
      (fun m => m.novelty_gain < config.min_novelty_gain) = true) := by
    rw [h]
    simp only [List.all_cons, List.all_nil, Bool.and_true, Bool.and_eq_true,
      decide_eq_true_eq]
    exact hn
  have hnpall : ¬ ((metrics.drop (metrics.length - 2)).all
      (fun m => m.precision_proxy < config.min_precision) = true) := by
    rw [h]
    simp only [List.all_cons, List.all_nil, Bool.and_true, Bool.and_eq_true,
      decide_eq_true_eq]
    exact hp
  unfold check_stopping_conditions
  rw [if_neg hlen]
  simp [hnall, hnpall]

/-- A string starts with each of its own leading components: the Python
`in` test (`strContains`) accepts any such leading substring. -/
lemma strContains_self_pre (pre suf : String) :
    strContains (pre ++ suf) pre = true := by
  unfold strContains
  rw [List.any_eq_true]
  refine ⟨pre.data ++ suf.data, ?_, ?_⟩
  · rw [List.mem_tails]
    show pre.data ++ suf.data <:+ pre.data ++ suf.data
    exact List.suffix_refl _
  · rw [ List.isPrefixOf_iff_prefix]
    exact List.prefix_append _ _

/-- The novelty stop reason contains `"novelty"`, whatever the configured
minimum renders as. -/
lemma strContains_novelty (x : String) :
    strContains ("novelty<" ++ x ++ " for 2 rounds") "novelty" = true := by
  have key := strContains_self_pre "novelty" ("<" ++ x ++ " for 2 rounds")
  have harr : ("novelty" : String) ++ ("<" ++ x ++ " for 2 rounds") =
      "novelty<" ++ x ++ " for 2 rounds" := by
    rw [← String.append_assoc, ← String.append_assoc]
    rfl
  rw [harr] at key
  exact key

/-- The precision stop reason contains `"precision"`. -/
lemma strContains_precision (x : String) :
    strContains ("precision<" ++ x ++ " for 2 rounds") "precision" = true := by
  have key := strContains_self_pre "precision" ("<" ++ x ++ " for 2 rounds")
  have harr : ("precision" : String) ++ ("<" ++ x ++ " for 2 rounds") =
      "precision<" ++ x ++ " for 2 rounds" := by
    rw [← String.append_assoc, ← String.append_assoc]
    rfl
  rw [harr] at key
  exact key

/-- The trailing two elements of a list ending in `p, e`. -/
lemma drop_last_pair (ys : List IterationMetrics) (p e : IterationMetrics) :
    ((ys ++ [p]) ++ [e]).drop (((ys ++ [p]) ++ [e]).length - 2) = [p, e] := by
  have hl : ((ys ++ [p]) ++ [e]).length - 2 = ys.length := by
    simp only [List.length_append, List.length_singleton]
    omega
  rw [hl, List.append_assoc]
  exact List.drop_left ys ([p] ++ [e])

/-- Appending an entry preserves `noFailingPair` provided the new trailing
pair is not jointly below either threshold. -/
lemma noFailingPair_snoc (config : RunConfig) (m : List IterationMetrics)
    (e : IterationMetrics) (hp : noFailingPair m config)
    (hlast : ∀ ys p, m = ys ++ [p] →
      ¬ bothBelowNovelty p e config ∧ ¬ bothBelowPrecision p e config) :
    noFailingPair (m ++ [e]) config := by
  intro j a b hja hjb
  have hjb_lt : j + 1 < (m ++ [e]).length := by
    by_contra hc
    rw [List.getElem?_eq_none (by omega)] at hjb
    cases hjb
  rw [List.length_append, List.length_singleton] at hjb_lt
  rcases Nat.lt_or_ge (j + 1) m.length with hlt | hge
  · have hja' : m[j]? = some a := by
      rw [List.getElem?_append_left (by omega)] at hja
      exact hja
    have hjb' : m[j + 1]? = some b := by
      rw [List.getElem?_append_left hlt] at hjb
      exact hjb
    exact hp j a b hja' hjb'
  · have hj1 : j + 1 = m.length := by omega
    have hsub : j + 1 - m.length = 0 := by omega
    rw [List.getElem?_append_right hge, hsub] at hjb
    have hb : e = b := by
      simpa using hjb
    have hm_ne : m ≠ [] := by
      intro h0
      rw [h0] at hj1
      simp at hj1
    rcases List.eq_nil_or_concat m with h0 | ⟨ys, p, hm⟩
    · exact absurd h0 hm_ne
    · rw [List.concat_eq_append] at hm
      have hj : j = ys.length := by
        rw [hm, List.length_append, List.length_singleton] at hj1
        omega
      have ha : p = a := by
        rw [hm] at hja
        rw [List.getElem?_append_left (show j < (ys ++ [p]).length by
          rw [List.length_append, List.length_singleton]; omega)] at hja
        rw [hj, List.getElem?_append_right (le_refl ys.length),
          Nat.sub_self] at hja
        simpa using hja
      rw [← ha, ← hb]
      exact hlast ys p hm

/-- The stopping discipline of the retrieval loop: starting from a state
whose metrics all lack a stop reason and contain no jointly-below
consecutive pair (with the iteration index matching the metrics length),
the loop's final metrics (a) contain a jointly-below consecutive pair only
where the second entry carries a stop reason, and (b) any entry carrying a
stop reason is the final one, sits at index at least 1, and its reason
mentions `novelty` or `precision`. -/
lemma loopGo_stop_rule (env : GmailEnv) (sig : Signals) (config : RunConfig)
    (rid : String) :
    ∀ fuel i st,
      i = st.metrics.length →
      (∀ a ∈ st.metrics, a.stop_reason = none) →
      noFailingPair st.metrics config →
      (∀ j a b, (loopGo env sig config rid i fuel st).1.metrics[j]? = some a →
        (loopGo env sig config rid i fuel st).1.metrics[j + 1]? = some b →
        b.stop_reason = none →
        ¬ bothBelowNovelty a b config ∧ ¬ bothBelowPrecision a b config) ∧
      (∀ j a, (loopGo env sig config rid i fuel st).1.metrics[j]? = some a →
        a.stop_reason ≠ none →
        1 ≤ j ∧ j + 1 = (loopGo env sig config rid i fuel st).1.metrics.length ∧
        ∃ r, a.stop_reason = some r ∧
          (strContains r "novelty" = true ∨ strContains r "precision" = true)) := by
  intro fuel
  induction fuel with
  | zero =>
    intro i st hI hN hP
    constructor
    · intro j a b hja hjb _
      exact hP j a b hja hjb
    · intro j a hja hne2
      exact absurd (hN a (List.getElem?_mem hja)) hne2
  | succ n ih =>
    intro i st hI hN hP
    rw [loopGo]
    split
    · constructor
      · intro j a b hja hjb _
        exact hP j a b hja hjb
      · intro j a hja hne2
        exact absurd (hN a (List.getElem?_mem hja)) hne2
    · split
      · next h =>
        rw [iterationStep_metrics] at h
        have hne : st.metrics ≠ [] := by
          intro h0
          have h1 := h.1
          rw [hI, h0] at h1
          simp at h1
        rcases List.eq_nil_or_concat st.metrics with h0 | ⟨ys, p, hm⟩
        · exact absurd h0 hne
        rw [List.concat_eq_append] at hm
        have hdropS : (st.metrics ++
            [(iterationStep env sig config rid i st).metrics_entry]).drop
            ((st.metrics ++
              [(iterationStep env sig config rid i st).metrics_entry]).length - 2)
            = [p, (iterationStep env sig config rid i st).metrics_entry] := by
          rw [hm]
          exact drop_last_pair ys p _
        have hsome : ∃ r, (check_stopping_conditions (st.metrics ++
            [(iterationStep env sig config rid i st).metrics_entry]) config).2 =
            some r ∧
            (strContains r "novelty" = true ∨ strContains r "precision" = true) := by
          by_cases hbn : bothBelowNovelty p
            (iterationStep env sig config rid i st).metrics_entry config
          · rw [check_fire_novelty _ config _ _ hdropS hbn]
            exact ⟨_, rfl, Or.inl (strContains_novelty _)⟩
          · by_cases hbp : bothBelowPrecision p
              (iterationStep env sig config rid i st).metrics_entry config
            · rw [check_fire_precision _ config _ _ hdropS hbn hbp]
              exact ⟨_, rfl, Or.inr (strContains_precision _)⟩
            · exact absurd h.2 (by rw [check_none _ config _ _ hdropS hbn hbp]; simp)
        obtain ⟨r, hr, hrc⟩ := hsome
        dsimp only
        rw [iterationStep_metrics, hr]
        constructor
        · intro j a b hja hjb hbnone
          have hjb_lt : j + 1 < st.metrics.length + 1 := by
            by_contra hc
            rw [List.getElem?_eq_none (by
              simp only [List.length_append, List.length_singleton]; omega)] at hjb
            cases hjb
          rcases Nat.lt_or_ge (j + 1) st.metrics.length with hlt | hge
          · exact hP j a b
              (by rw [List.getElem?_append_left (by omega)] at hja; exact hja)
              (by rw [List.getElem?_append_left hlt] at hjb; exact hjb)
          · have hsub : j + 1 - st.metrics.length = 0 := by omega
            rw [List.getElem?_append_right hge, hsub] at hjb
            have hb := hjb
            simp at hb
            rw [← hb] at hbnone
            simp at hbnone
        · intro j a hja hne2
          have hj_lt : j < st.metrics.length + 1 := by
            by_contra hc
            rw [List.getElem?_eq_none (by
              simp only [List.length_append, List.length_singleton]; omega)] at hja
            cases hja
          rcases Nat.lt_or_ge j st.metrics.length with hlt | hge
          · have hja' : st.metrics[j]? = some a := by
              rw [List.getElem?_append_left hlt] at hja
              exact hja
            exact absurd (hN a (List.getElem?_mem hja')) hne2
          · have hsub : j - st.metrics.length = 0 := by omega
            rw [List.getElem?_append_right hge, hsub] at hja
            have ha := hja
            simp at ha
            refine ⟨by omega, ?_, r, ?_, hrc⟩
            · simp only [List.length_append, List.length_singleton]
              omega
            · rw [← ha]
      · next h2 =>
        have hN' : ∀ a ∈ st.metrics ++
            [(iterationStep env sig config rid i st).metrics_entry],
            a.stop_reason = none := by
          intro a ha
          rcases List.mem_append.mp ha with h1 | hE
          · exact hN a h1
          · rw [List.mem_singleton.mp hE]
            exact iterationStep_entry_reason env sig config rid i st
        have hP' : noFailingPair (st.metrics ++
            [(iterationStep env sig config rid i st).metrics_entry]) config := by
          apply noFailingPair_snoc config st.metrics _ hP
          intro ys p hm
          have hi1 : 1 ≤ i := by
            rw [hI, hm]
            simp only [List.length_append, List.length_singleton]
            omega
          have hdrop2 : (st.metrics ++
              [(iterationStep env sig config rid i st).metrics_entry]).drop
              ((st.metrics ++
                [(iterationStep env sig config rid i st).metrics_entry]).length - 2)
              = [p, (iterationStep env sig config rid i st).metrics_entry] := by
            rw [hm]
            exact drop_last_pair ys p _
          have hcf : ¬ ((check_stopping_conditions (st.metrics ++
              [(iterationStep env sig config rid i st).metrics_entry])
              config).1 = true) := by
            intro hc
            exact h2 ⟨hi1, by rw [iterationStep_metrics]; exact hc⟩
          constructor
          · intro hbn
            exact hcf (by rw [check_fire_novelty _ config _ _ hdrop2 hbn])
          · intro hbp
            by_cases hbn : bothBelowNovelty p
              (iterationStep env sig config rid i st).metrics_entry config
            · exact hcf (by rw [check_fire_novelty _ config _ _ hdrop2 hbn])
            · exact hcf (by rw [check_fire_precision _ config _ _ hdrop2 hbn hbp])
        have hI' : i + 1 = (st.metrics ++
            [(iterationStep env sig config rid i st).metrics_entry]).length := by
          simp only [List.length_append, List.length_singleton]
          omega
        split
        · split
          · dsimp only
            constructor
            · intro j a b hja hjb _
              rw [iterationStep_metrics] at hja hjb
              exact hP' j a b hja hjb
            · intro j a hja hne2
              rw [iterationStep_metrics] at hja
              exact absurd (hN' a (List.getElem?_mem hja)) hne2
          · exact ih (i + 1) _ hI' hN' hP'
        · exact ih (i + 1) _ hI' hN' hP'

/-- C2: the retrieval loop's stopping rule is evaluated only once at least
two iterations have completed — with fewer than two metrics entries the
check never fires, and a recorded stop always sits at index ≥ 1.  The
check fires exactly when, over the trailing two iterations, novelty-gain
was below the configured minimum in both or precision-proxy was below its
minimum in both; the recorded reason contains `"novelty"` respectively
`"precision"`; and a single iteration above threshold resets the trailing
two-iteration window (neither condition jointly failing means no stop).
At the loop level, any jointly-below consecutive pair in a finished run's
metrics has a stop reason recorded on the second of the two, and any entry
carrying a stop reason is the final one — the loop halted at the end of
the second failing iteration — with a reason mentioning `novelty` or
`precision`. -/
theorem C2_stopping_rule (config : RunConfig) :
    (∀ metrics : List IterationMetrics, metrics.length < 2 →
      check_stopping_conditions metrics config = (false, none)) ∧
    (∀ (metrics : List IterationMetrics) (a b : IterationMetrics),
      metrics.drop (metrics.length - 2) = [a, b] →
      ((check_stopping_conditions metrics config).1 = true ↔
        bothBelowNovelty a b config ∨ bothBelowPrecision a b config) ∧
      (bothBelowNovelty a b config →
        check_stopping_conditions metrics config = (true,
          some ("novelty<" ++ toString config.min_novelty_gain ++
            " for 2 rounds")) ∧
        strContains ("novelty<" ++ toString config.min_novelty_gain ++
          " for 2 rounds") "novelty" = true) ∧
      (¬ bothBelowNovelty a b config → bothBelowPrecision a b config →
        check_stopping_conditions metrics config = (true,
          some ("precision<" ++ toString config.min_precision ++
            " for 2 rounds")) ∧
        strContains ("precision<" ++ toString config.min_precision ++
          " for 2 rounds") "precision" = true) ∧
      (¬ bothBelowNovelty a b config → ¬ bothBelowPrecision a b config →
        check_stopping_conditions metrics config = (false, none))) ∧
    (∀ (env : GmailEnv) (sig : Signals) (rid : String) (j : ℕ)
      (a b : IterationMetrics),
      (iterative_retrieval env sig config rid).1.metrics[j]? = some a →
      (iterative_retrieval env sig config rid).1.metrics[j + 1]? = some b →
      (bothBelowNovelty a b config ∨ bothBelowPrecision a b config) →
      b.stop_reason ≠ none) ∧
    (∀ (env : GmailEnv) (sig : Signals) (rid : String) (j : ℕ)
      (a : IterationMetrics),
      (iterative_retrieval env sig config rid).1.metrics[j]? = some a →
      a.stop_reason ≠ none →
      1 ≤ j ∧ j + 1 = (iterative_retrieval env sig config rid).1.metrics.length ∧
      ∃ r, a.stop_reason = some r ∧
        (strContains r "novelty" = true ∨ strContains r "precision" = true)) := by
  refine ⟨fun metrics h => check_short metrics config h, ?_, ?_, ?_⟩
  · intro metrics a b hdrop
    refine ⟨⟨?_, ?_⟩, ?_, ?_, ?_⟩
    · intro hfired
      by_contra hno
      push_neg at hno
      rw [check_none metrics config a b hdrop hno.1 hno.2] at hfired
      simp at hfired
    · intro hor
      rcases hor with hbn | hbp
      · rw [check_fire_novelty metrics config a b hdrop hbn]
      · by_cases hbn : bothBelowNovelty a b config
        · rw [check_fire_novelty metrics config a b hdrop hbn]
        · rw [check_fire_precision metrics config a b hdrop hbn hbp]
    · intro hbn
      exact ⟨check_fire_novelty metrics config a b hdrop hbn,
        strContains_novelty _⟩
    · intro hbn hbp
      exact ⟨check_fire_precision metrics config a b hdrop hbn hbp,
        strContains_precision _⟩
    · intro hbn hbp
      exact check_none metrics config a b hdrop hbn hbp
  · intro env sig rid j a b hja hjb hboth hbnone
    have H := loopGo_stop_rule env sig config rid config.max_iters 0
      ⟨∅, ∅, extract_initial_terms config.question, [], [], [], []⟩ rfl
      (by intro a ha; simp at ha) (by intro j a b hja _; simp at hja)
    have := H.1 j a b hja hjb hbnone
    rcases hboth with hbn | hbp
    · exact this.1 hbn
    · exact this.2 hbp
  · intro env sig rid j a hja hne2
    have H := loopGo_stop_rule env sig config rid config.max_iters 0
      ⟨∅, ∅, extract_initial_terms config.question, [], [], [], []⟩ rfl
      (by intro a ha; simp at ha) (by intro j a b hja _; simp at hja)
    exact H.2 j a hja hne2

/-- C2 witness: the empty metrics list never fires the check, and in the
concrete run where every provider call fails, both iterations have novelty
gain `0 < 1/50`, so the loop stops at iteration 1 with a recorded reason. -/
theorem C2_stopping_rule_witness :
    check_stopping_conditions [] baseConfig = (false, none) ∧
    (⟨1, 0, 0, 0, 0, 0, 0, 0,
      some ("novelty<" ++ toString baseConfig.min_novelty_gain ++
        " for 2 rounds")⟩ : IterationMetrics).stop_reason ≠ none := by
  constructor
  · exact (C2_stopping_rule baseConfig).1 [] (by decide)
  · exact (C2_stopping_rule baseConfig).2.2.1 errEnv quietSig "r" 0
      ⟨0, 0, 0, 0, 0, 0, 0, 0, none⟩
      ⟨1, 0, 0, 0, 0, 0, 0, 0,
        some ("novelty<" ++ toString baseConfig.min_novelty_gain ++
          " for 2 rounds")⟩
      (by decide) (by decide) (Or.inl (by decide))
